import Mathlib

/-!
# Katana: the buffered graph loader, the file objects, the partition core, the truss check

A shallow embedding of `galois::graphs::BufferedGraph`
(`libgalois/include/galois/graphs/BufferedGraph.h`), of the file objects exercised by
`libtsuba/tests/fileobjects.cpp`, of `tsuba::RDGCore::RegisterTopologyFile`
(`libtsuba/src/RDGCore.h`) and of `isSupportNoLessThanJ` (`exp/apps/ktruss/Verify.cpp`).

Conventions of the embedding.

* A file is the list of its bytes (`List Nat`, every entry below 256).
* `uint64_t` values are natural numbers; sums, products and differences that the
  source computes in `uint64_t` are reduced modulo `2 ^ 64` where the operands come
  straight from the arguments of a call (file positions, allocation sizes, loop
  counters, the right-hand sides of the range assertions) and in the three byte
  counters (`galois::GAccumulator<uint64_t>`, declared outside the sources: `+=` adds,
  `reduce` gives the sum, `reset` clears) and their total.
* Buffers are byte lists; an entry of a `uint64_t*` or `uint32_t*` buffer is the
  little-endian value of its bytes, as on the machines the file format targets.
* `GALOIS_DIE`, a violated `assert`, an out-of-bounds buffer access and a loop that
  does not finish are distinct outcomes of a call; a call that does not return
  normally still reports the state of the object at that moment.
* The loops take a bound on the number of iterations (`fuel`).
-/

/-! ## Definitions: the embedding of the sources -/

namespace Katana

/-- Modulus of `uint64_t` arithmetic. -/
def U64 : Nat := 2 ^ 64

/-- The diagnostics of `GALOIS_DIE` in `BufferedGraph.h`. -/
inductive Fatal where
  | loadedTwice
  | allocOutIndex
  | allocEdgeDest
  | allocEdgeData
  | notLoaded
  | noEdgeData
  deriving DecidableEq

/-- How a call ends: it returns a value, dies through `GALOIS_DIE`, violates an
`assert`, reads a buffer out of bounds (undefined behaviour), or is still inside a
read loop when the fuel is used up. -/
inductive Outcome (α : Type) where
  | ok (a : α)
  | die (f : Fatal)
  | assertFail
  | undef
  | hang
  deriving DecidableEq

/-- Whether the call returned a value. -/
def Outcome.returns {α : Type} : Outcome α → Bool
  | .ok _ => true
  | _ => false

/-- Calls made on the stream, recorded in order. -/
inductive StreamEvent where
  | seekg (pos : Nat)
  | read (requested delivered : Nat)
  deriving DecidableEq

/-- The part of `std::ifstream` the loader uses: the bytes of the file, the get
position and the fail bit.  `shortReads` is the schedule of the stream buffer: at the
k-th call of `read` it hands over at most the k-th entry, and as much as is asked for
once the schedule is used up.  A file buffer retries the medium itself and hands over
fewer bytes than asked only at the end of the file: that is the empty schedule.
`trace` records the calls. -/
structure IfStream where
  content : List Nat
  pos : Nat
  failbit : Bool
  shortReads : List Nat
  trace : List StreamEvent
  deriving DecidableEq

/-- What a machine offers to a load: its files by name, the short-read schedule of
the stream buffer, and which allocation sizes `malloc` refuses. -/
structure Env where
  files : String → Option (List Nat)
  shortReads : List Nat
  mallocFails : Nat → Bool

/-- The constructor `std::ifstream graphFile(filename)`: a file that cannot be opened
leaves the stream with the fail bit set. -/
def IfStream.openFile (env : Env) (filename : String) : IfStream :=
  match env.files filename with
  | some bytes =>
    { content := bytes, pos := 0, failbit := false, shortReads := env.shortReads, trace := [] }
  | none =>
    { content := [], pos := 0, failbit := true, shortReads := env.shortReads, trace := [] }

/-- The call `seekg(pos)`: ignored by a failed stream; seeking past the end is
allowed and shows at the next read. -/
def IfStream.seekg (f : IfStream) (p : Nat) : IfStream :=
  if f.failbit then { f with trace := f.trace ++ [StreamEvent.seekg p] }
  else { f with pos := p, trace := f.trace ++ [StreamEvent.seekg p] }

/-- The call `read(dst, n)` followed by `gcount()`: the bytes delivered (their number
is `gcount`) and the stream afterwards.  `std::istream::read` asks the stream buffer
for `n` bytes and sets `eofbit | failbit` whenever it gets fewer; a failed stream
delivers nothing. -/
def IfStream.read (f : IfStream) (n : Nat) : List Nat × IfStream :=
  if f.failbit then ([], { f with trace := f.trace ++ [StreamEvent.read n 0] })
  else
    let cap := match f.shortReads with
      | [] => n
      | c :: _ => min c n
    let got := (f.content.drop f.pos).take cap
    (got, { f with pos := f.pos + got.length,
                   failbit := decide (got.length ≠ n),
                   shortReads := f.shortReads.tail,
                   trace := f.trace ++ [StreamEvent.read n got.length] })

/-- Storing `bytes` at byte offset `off` of a buffer. -/
def writeAt (buf : List Nat) (off : Nat) (bytes : List Nat) : List Nat :=
  buf.take off ++ bytes ++ buf.drop (off + bytes.length)

/-- Little-endian value of a byte string. -/
def leValue : List Nat → Nat
  | [] => 0
  | b :: bs => b + 256 * leValue bs

/-- Entry `i` of a buffer of `width`-byte integers; `none` when the entry does not
lie inside the allocation (or the buffer is the null pointer). -/
def bufferEntry (buf : Option (List Nat)) (width i : Nat) : Option Nat :=
  match buf with
  | none => none
  | some bytes =>
    if (i + 1) * width ≤ bytes.length then some (leValue ((bytes.drop (i * width)).take width))
    else none

/-- Allocated size of a buffer in bytes; 0 for the null pointer. -/
def bufferSize : Option (List Nat) → Nat
  | none => 0
  | some bytes => bytes.length

/-- The loop `while (numBytesToLoad > 0) { read; numBytesToLoad -= gcount; bytesRead +=
gcount; }` shared, word for word, by the three load stages.  The flag tells whether
the loop was left. -/
def readLoop : Nat → IfStream → List Nat → Nat → Nat → Bool × IfStream × List Nat
  | 0, f, buf, numBytesToLoad, _ => (decide (numBytesToLoad = 0), f, buf)
  | fuel + 1, f, buf, numBytesToLoad, bytesRead =>
    if numBytesToLoad = 0 then (true, f, buf)
    else
      let r := f.read numBytesToLoad
      let numRead := r.1.length
      readLoop fuel r.2 (writeAt buf bytesRead r.1)
        ((numBytesToLoad + U64 - numRead) % U64) ((bytesRead + numRead) % U64)

/-- The data members of `BufferedGraph<EdgeDataType>`.  A buffer is `none` for the
null pointer and the allocated bytes otherwise. -/
structure BufferedGraph where
  outIndexBuffer : Option (List Nat)
  edgeDestBuffer : Option (List Nat)
  edgeDataBuffer : Option (List Nat)
  numLocalNodes : Nat
  numLocalEdges : Nat
  nodeOffset : Nat
  edgeOffset : Nat
  graphLoaded : Bool
  numBytesReadOutIndex : Nat
  numBytesReadEdgeDest : Nat
  numBytesReadEdgeData : Nat
  deriving DecidableEq

namespace BufferedGraph

/-- The method `resetReadCounters`. -/
def resetReadCounters (g : BufferedGraph) : BufferedGraph :=
  { g with numBytesReadOutIndex := 0, numBytesReadEdgeDest := 0, numBytesReadEdgeData := 0 }

/-- The constructor `BufferedGraph()`: the in-class initialisers, then
`resetReadCounters`. -/
def new : BufferedGraph :=
  resetReadCounters
    { outIndexBuffer := none, edgeDestBuffer := none, edgeDataBuffer := none,
      numLocalNodes := 0, numLocalEdges := 0, nodeOffset := 0, edgeOffset := 0,
      graphLoaded := false,
      numBytesReadOutIndex := 0, numBytesReadEdgeDest := 0, numBytesReadEdgeData := 0 }

/-- File position of the out-index entry of `nodeStart`:
`(4 + nodeStart) * sizeof(uint64_t)`. -/
def outIndexReadPosition (nodeStart : Nat) : Nat :=
  ((4 + nodeStart) * 8) % U64

/-- File position of the destination of `edgeStart`:
`(4 + numGlobalNodes) * sizeof(uint64_t) + sizeof(uint32_t) * edgeStart`. -/
def edgeDestReadPosition (edgeStart numGlobalNodes : Nat) : Nat :=
  ((4 + numGlobalNodes) * 8 + 4 * edgeStart) % U64

/-- File position of the data record of `edgeStart` for records of `sz` bytes: the
position after nodes and edges, the version 1 padding, then
`sizeof(EdgeDataType) * edgeStart`. -/
def edgeDataReadPosition (sz edgeStart numGlobalNodes numGlobalEdges : Nat) : Nat :=
  let baseReadPosition := ((4 + numGlobalNodes) * 8 + 4 * numGlobalEdges) % U64
  let baseReadPosition :=
    if numGlobalEdges % 2 ≠ 0 then (baseReadPosition + 4) % U64 else baseReadPosition
  (baseReadPosition + sz * edgeStart) % U64

/-- The method `loadOutIndex`. -/
def loadOutIndex (env : Env) (fuel : Nat) (g : BufferedGraph) (graphFile : IfStream)
    (nodeStart numNodesToLoad : Nat) : Outcome Unit × BufferedGraph × IfStream :=
  if numNodesToLoad = 0 then (.ok (), g, graphFile)
  else if g.outIndexBuffer.isSome then (.assertFail, g, graphFile)
  else
    let size := (8 * numNodesToLoad) % U64
    if env.mallocFails size then (.die .allocOutIndex, g, graphFile)
    else
      let graphFile := graphFile.seekg (outIndexReadPosition nodeStart)
      let numBytesToLoad := (numNodesToLoad * 8) % U64
      let r := readLoop fuel graphFile (List.replicate size 0) numBytesToLoad 0
      if r.1 then (.ok (), { g with outIndexBuffer := some r.2.2, nodeOffset := nodeStart }, r.2.1)
      else (.hang, { g with outIndexBuffer := some r.2.2 }, r.2.1)

/-- The method `loadEdgeDest`. -/
def loadEdgeDest (env : Env) (fuel : Nat) (g : BufferedGraph) (graphFile : IfStream)
    (edgeStart numEdgesToLoad numGlobalNodes : Nat) : Outcome Unit × BufferedGraph × IfStream :=
  if numEdgesToLoad = 0 then (.ok (), g, graphFile)
  else if g.edgeDestBuffer.isSome then (.assertFail, g, graphFile)
  else
    let size := (4 * numEdgesToLoad) % U64
    if env.mallocFails size then (.die .allocEdgeDest, g, graphFile)
    else
      let graphFile := graphFile.seekg (edgeDestReadPosition edgeStart numGlobalNodes)
      let numBytesToLoad := (numEdgesToLoad * 4) % U64
      let r := readLoop fuel graphFile (List.replicate size 0) numBytesToLoad 0
      if r.1 then (.ok (), { g with edgeDestBuffer := some r.2.2, edgeOffset := edgeStart }, r.2.1)
      else (.hang, { g with edgeDestBuffer := some r.2.2 }, r.2.1)

/-- The two overloads of `loadEdgeData`: `edgeDataSize` is `none` when `EdgeDataType`
is `void` (nothing is loaded) and `sizeof(EdgeDataType)` otherwise. -/
def loadEdgeData (edgeDataSize : Option Nat) (env : Env) (fuel : Nat) (g : BufferedGraph)
    (graphFile : IfStream) (edgeStart numEdgesToLoad numGlobalNodes numGlobalEdges : Nat) :
    Outcome Unit × BufferedGraph × IfStream :=
  match edgeDataSize with
  | none => (.ok (), g, graphFile)
  | some sz =>
    if numEdgesToLoad = 0 then (.ok (), g, graphFile)
    else if g.edgeDataBuffer.isSome then (.assertFail, g, graphFile)
    else
      let size := (sz * numEdgesToLoad) % U64
      if env.mallocFails size then (.die .allocEdgeData, g, graphFile)
      else
        let graphFile :=
          graphFile.seekg (edgeDataReadPosition sz edgeStart numGlobalNodes numGlobalEdges)
        let numBytesToLoad := (numEdgesToLoad * sz) % U64
        let r := readLoop fuel graphFile (List.replicate size 0) numBytesToLoad 0
        if r.1 then (.ok (), { g with edgeDataBuffer := some r.2.2 }, r.2.1)
        else (.hang, { g with edgeDataBuffer := some r.2.2 }, r.2.1)

/-- The method `resetGraphStatus`. -/
def resetGraphStatus (g : BufferedGraph) : BufferedGraph :=
  resetReadCounters
    { g with graphLoaded := false, nodeOffset := 0, edgeOffset := 0,
             numLocalNodes := 0, numLocalEdges := 0 }

/-- The method `freeMemory`. -/
def freeMemory (g : BufferedGraph) : BufferedGraph :=
  { g with outIndexBuffer := none, edgeDestBuffer := none, edgeDataBuffer := none }

/-- The method `loadPartialGraph`.  Besides the outcome and the object it reports the
calls made on the stream, which is local to the method. -/
def loadPartialGraph (edgeDataSize : Option Nat) (env : Env) (fuel : Nat) (g : BufferedGraph)
    (filename : String) (nodeStart nodeEnd edgeStart edgeEnd numGlobalNodes numGlobalEdges : Nat) :
    Outcome Unit × BufferedGraph × List StreamEvent :=
  if g.graphLoaded then (.die .loadedTwice, g, [])
  else
    let graphFile := IfStream.openFile env filename
    if ¬ nodeStart ≤ nodeEnd then (.assertFail, g, graphFile.trace)
    else
      let g := { g with numLocalNodes := nodeEnd - nodeStart }
      match loadOutIndex env fuel g graphFile nodeStart g.numLocalNodes with
      | (.ok (), g, graphFile) =>
        if ¬ edgeStart ≤ edgeEnd then (.assertFail, g, graphFile.trace)
        else
          let g := { g with numLocalEdges := edgeEnd - edgeStart }
          match loadEdgeDest env fuel g graphFile edgeStart g.numLocalEdges numGlobalNodes with
          | (.ok (), g, graphFile) =>
            match loadEdgeData edgeDataSize env fuel g graphFile edgeStart g.numLocalEdges
                numGlobalNodes numGlobalEdges with
            | (.ok (), g, graphFile) => (.ok (), { g with graphLoaded := true }, graphFile.trace)
            | (o, g, graphFile) => (o, g, graphFile.trace)
          | (o, g, graphFile) => (o, g, graphFile.trace)
      | (o, g, graphFile) => (o, g, graphFile.trace)

/-- The method `edgeBegin`. -/
def edgeBegin (g : BufferedGraph) (globalNodeID : Nat) : Outcome Nat × BufferedGraph :=
  if ¬ g.graphLoaded then (.die .notLoaded, g)
  else if g.numLocalNodes = 0 then (.ok 0, g)
  else if ¬ g.nodeOffset ≤ globalNodeID then (.assertFail, g)
  else if ¬ globalNodeID < (g.nodeOffset + g.numLocalNodes) % U64 then (.assertFail, g)
  else
    let localNodeID := globalNodeID - g.nodeOffset
    if localNodeID ≠ 0 then
      let g := { g with numBytesReadOutIndex := (g.numBytesReadOutIndex + 8) % U64 }
      match bufferEntry g.outIndexBuffer 8 (localNodeID - 1) with
      | some v => (.ok v, g)
      | none => (.undef, g)
    else (.ok g.edgeOffset, g)

/-- The method `edgeEnd`. -/
def edgeEnd (g : BufferedGraph) (globalNodeID : Nat) : Outcome Nat × BufferedGraph :=
  if ¬ g.graphLoaded then (.die .notLoaded, g)
  else if g.numLocalNodes = 0 then (.ok 0, g)
  else if ¬ g.nodeOffset ≤ globalNodeID then (.assertFail, g)
  else if ¬ globalNodeID < (g.nodeOffset + g.numLocalNodes) % U64 then (.assertFail, g)
  else
    let g := { g with numBytesReadOutIndex := (g.numBytesReadOutIndex + 8) % U64 }
    let localNodeID := globalNodeID - g.nodeOffset
    match bufferEntry g.outIndexBuffer 8 localNodeID with
    | some v => (.ok v, g)
    | none => (.undef, g)

/-- The method `edgeDestination`. -/
def edgeDestination (g : BufferedGraph) (globalEdgeID : Nat) : Outcome Nat × BufferedGraph :=
  if ¬ g.graphLoaded then (.die .notLoaded, g)
  else if g.numLocalEdges = 0 then (.ok 0, g)
  else if ¬ g.edgeOffset ≤ globalEdgeID then (.assertFail, g)
  else if ¬ globalEdgeID < (g.edgeOffset + g.numLocalEdges) % U64 then (.assertFail, g)
  else
    let g := { g with numBytesReadEdgeDest := (g.numBytesReadEdgeDest + 4) % U64 }
    let localEdgeID := globalEdgeID - g.edgeOffset
    match bufferEntry g.edgeDestBuffer 4 localEdgeID with
    | some v => (.ok v, g)
    | none => (.undef, g)

/-- The two overloads of `edgeData`: for `void` edge data (`edgeDataSize = none`) a
warning is printed and 0 returned; otherwise the record of the edge is returned, read
as an unsigned integer of `sizeof(EdgeDataType)` bytes. -/
def edgeData (edgeDataSize : Option Nat) (g : BufferedGraph) (globalEdgeID : Nat) :
    Outcome Nat × BufferedGraph :=
  match edgeDataSize with
  | none => (.ok 0, g)
  | some sz =>
    if ¬ g.graphLoaded then (.die .notLoaded, g)
    else if g.edgeDataBuffer.isNone then (.die .noEdgeData, g)
    else if g.numLocalEdges = 0 then (.ok 0, g)
    else if ¬ g.edgeOffset ≤ globalEdgeID then (.assertFail, g)
    else if ¬ globalEdgeID < (g.edgeOffset + g.numLocalEdges) % U64 then (.assertFail, g)
    else
      let g := { g with numBytesReadEdgeData := (g.numBytesReadEdgeData + sz) % U64 }
      let localEdgeID := globalEdgeID - g.edgeOffset
      match bufferEntry g.edgeDataBuffer sz localEdgeID with
      | some v => (.ok v, g)
      | none => (.undef, g)

/-- The method `getBytesRead`: the sum of the three reduced counters, in `uint64_t`. -/
def getBytesRead (g : BufferedGraph) : Nat :=
  (g.numBytesReadOutIndex + g.numBytesReadEdgeDest + g.numBytesReadEdgeData) % U64

/-- The method `resetAndFree`. -/
def resetAndFree (g : BufferedGraph) : BufferedGraph :=
  resetGraphStatus (freeMemory g)

/-- A loaded instance in the sense of the data model: the loaded flag is set, the
out-index and destination buffers are sized to the local counts, and the ends of the
local node and edge ranges are `uint64_t` values. -/
def Loaded (g : BufferedGraph) : Prop :=
  g.graphLoaded = true ∧
  bufferSize g.outIndexBuffer = 8 * g.numLocalNodes ∧
  bufferSize g.edgeDestBuffer = 4 * g.numLocalEdges ∧
  g.nodeOffset + g.numLocalNodes < U64 ∧
  g.edgeOffset + g.numLocalEdges < U64

instance (g : BufferedGraph) : Decidable (Loaded g) := by
  unfold Loaded
  infer_instance

/-- The calls a reader makes on a loaded instance. -/
inductive Access where
  | edgeBegin (globalNodeID : Nat)
  | edgeEnd (globalNodeID : Nat)
  | edgeDestination (globalEdgeID : Nat)
  | edgeData (globalEdgeID : Nat)
  | getBytesRead
  deriving DecidableEq

/-- The object after one reader call. -/
def access (edgeDataSize : Option Nat) (g : BufferedGraph) : Access → BufferedGraph
  | .edgeBegin n => (edgeBegin g n).2
  | .edgeEnd n => (edgeEnd g n).2
  | .edgeDestination e => (edgeDestination g e).2
  | .edgeData e => (edgeData edgeDataSize g e).2
  | .getBytesRead => g

/-- The object after a sequence of reader calls. -/
def accesses (edgeDataSize : Option Nat) (g : BufferedGraph) (calls : List Access) :
    BufferedGraph :=
  calls.foldl (access edgeDataSize) g

/-- The destinations of the edges with the given global ids, in order, by
`edgeDestination`; the first call that does not return ends the walk. -/
def edgeDestinations (g : BufferedGraph) : List Nat → Outcome (List Nat) × BufferedGraph
  | [] => (.ok [], g)
  | e :: es =>
    match edgeDestination g e with
    | (.ok d, g) =>
      match edgeDestinations g es with
      | (.ok ds, g) => (.ok (d :: ds), g)
      | r => r
    | (.die f, g) => (.die f, g)
    | (.assertFail, g) => (.assertFail, g)
    | (.undef, g) => (.undef, g)
    | (.hang, g) => (.hang, g)

/-- The adjacency of a node as a reader reconstructs it: `edgeDestination(e)` for
`e` from `edgeBegin(n)` up to `edgeEnd(n)`. -/
def adjacency (g : BufferedGraph) (n : Nat) : Outcome (List Nat) :=
  match edgeBegin g n with
  | (.ok b, g) =>
    match edgeEnd g n with
    | (.ok e, g) => (edgeDestinations g (List.range' b (e - b))).1
    | (.die f, _) => .die f
    | (.assertFail, _) => .assertFail
    | (.undef, _) => .undef
    | (.hang, _) => .hang
  | (.die f, _) => .die f
  | (.assertFail, _) => .assertFail
  | (.undef, _) => .undef
  | (.hang, _) => .hang

end BufferedGraph

/-- The `width` low bytes of `v`, least significant first. -/
def leBytes : Nat → Nat → List Nat
  | 0, _ => []
  | width + 1, v => v % 256 :: leBytes width (v / 256)

/-- Modelled from the spec: the version 1 binary graph file of §3, whose writer is
not among the sources.  A header of four 8-byte words (version, size of an edge-data
record, node count, edge count), the out-index entries, the destinations, and, when
there is edge data, the 4-byte pad after an odd number of destinations followed by
the records. -/
def graphFileV1 (outIndex dests : List Nat) (edgeData : Option (Nat × List Nat)) : List Nat :=
  leBytes 8 1 ++ leBytes 8 (match edgeData with | none => 0 | some d => d.1)
    ++ leBytes 8 outIndex.length ++ leBytes 8 dests.length
    ++ (outIndex.map (leBytes 8)).flatten ++ (dests.map (leBytes 4)).flatten
    ++ (match edgeData with
        | none => []
        | some d =>
          (if dests.length % 2 ≠ 0 then leBytes 4 0 else [])
            ++ (d.2.map (leBytes d.1)).flatten)

/-- A machine holding one file, named `graph`, read through a file buffer and
with no allocation failure. -/
def machineWith (bytes : List Nat) : Env :=
  { files := fun name => if name = "graph" then some bytes else none,
    shortReads := [],
    mallocFails := fun _ => false }

/-- The file of the concrete scenario: three nodes with out-index 2, 3, 4, four edges
and 4-byte edge-data records. -/
def scenarioFile : List Nat :=
  graphFileV1 [2, 3, 4] [1, 2, 0, 1] (some (4, [10, 20, 30, 40]))

/-- The load of the concrete scenario: the whole scenario file into a fresh instance. -/
def scenarioLoad : Outcome Unit × BufferedGraph × List StreamEvent :=
  BufferedGraph.loadPartialGraph (some 4) (machineWith scenarioFile) 1 BufferedGraph.new "graph"
    0 3 0 4 3 4

namespace BufferedGraph

/-- The scenario file loaded with all its nodes and an empty edge range. -/
def noEdgesLoad : Outcome Unit × BufferedGraph × List StreamEvent :=
  loadPartialGraph (some 4) (machineWith scenarioFile) 1 new "graph" 0 3 0 0 3 4

end BufferedGraph

/-- A graph of three nodes and two edges, both leaving node 0: out-index 2, 2, 2,
destinations 1 and 2, no edge data. -/
def starFile : List Nat :=
  graphFileV1 [2, 2, 2] [1, 2] none

namespace BufferedGraph

/-- The star file loaded in one call: nodes 0 to 2, edges 0 and 1. -/
def starWhole : Outcome Unit × BufferedGraph × List StreamEvent :=
  loadPartialGraph none (machineWith starFile) 1 new "graph" 0 3 0 2 3 2

/-- The first of the two partial loads of the star file split at node 1: node 0 with
its edge range, from 0 to the out-index entry of node 0. -/
def starFirst : Outcome Unit × BufferedGraph × List StreamEvent :=
  loadPartialGraph none (machineWith starFile) 1 new "graph" 0 1 0 2 3 2

/-- The second partial load: nodes 1 and 2 with their edge range, from the out-index
entry of node 0 to the out-index entry of node 2. -/
def starSecond : Outcome Unit × BufferedGraph × List StreamEvent :=
  loadPartialGraph none (machineWith starFile) 1 new "graph" 1 3 2 2 3 2

/-- Whether a recorded call is a `read`. -/
def isRead : StreamEvent → Bool
  | .read _ _ => true
  | .seekg _ => false

/-- Total number of bytes delivered by the recorded reads. -/
def delivered : List StreamEvent → Nat
  | [] => 0
  | .read _ d :: evs => d + delivered evs
  | .seekg _ :: evs => delivered evs

/-- The calls a load stage records: none when its range is empty, else a seek to its
position followed by the calls of its read loop. -/
def stageTrace (rangeEmpty : Bool) (position : Nat) (loop : List StreamEvent) :
    List StreamEvent :=
  if rangeEmpty then [] else StreamEvent.seekg position :: loop

/-- The scenario file loaded from node `2 ^ 61`: one node, one edge. -/
def wrappedLoad : Outcome Unit × BufferedGraph × List StreamEvent :=
  loadPartialGraph (some 4) (machineWith scenarioFile) 1 new "graph" (2 ^ 61) (2 ^ 61 + 1) 0 1 3 4

/-- The scenario file loaded with an empty node range and an empty edge range. -/
def emptyLoad : Outcome Unit × BufferedGraph × List StreamEvent :=
  loadPartialGraph (some 4) (machineWith scenarioFile) 1 new "graph" 1 1 2 2 3 4

end BufferedGraph

/-- Result of a call on a file object: success, a failure result the caller inspects,
or a fatal precondition violation. -/
inductive Status where
  | ok
  | failure
  | fatal
  deriving DecidableEq

/-- Modelled from the spec: durable storage, the external store behind bind, read,
write and persist; it maps a destination identifier to the bytes of the object stored
there, if any. -/
abbrev Storage := String → Option (List Nat)

/-- Storage after the object at `destination` has been replaced by `bytes`. -/
def Storage.store (storage : Storage) (destination : String) (bytes : List Nat) : Storage :=
  fun name => if name = destination then some bytes else storage name

/-- Modelled from the spec: the size of the object stored at a destination, as
`tsuba::FileStat` (which is missing) reports it; `none` when there is no such object. -/
def FileStat (storage : Storage) (destination : String) : Option Nat :=
  (storage destination).map List.length

/-- Modelled from the spec: the state of a write frame (`tsuba::FileFrame`, whose
implementation is missing): whether `Init` has allocated the buffer, the bytes
accumulated so far, the bound destination, and the persisted and closed marks of its
life cycle Unbound, Bound, Persisted, Closed. -/
structure FileFrame where
  valid : Bool
  bytes : List Nat
  destination : Option String
  persisted : Bool
  isClosed : Bool
  deriving DecidableEq

/-- A pre-built buffer object (`arrow::Buffer`) holding bytes. -/
structure Buffer where
  data : List Nat
  deriving DecidableEq

/-- One entry of a sequence of writes: raw bytes or a pre-built buffer object. -/
inductive Chunk where
  | raw (bytes : List Nat)
  | buffer (buf : Buffer)
  deriving DecidableEq

/-- The bytes a chunk carries. -/
def Chunk.bytes : Chunk → List Nat
  | .raw bytes => bytes
  | .buffer buf => buf.data

namespace FileFrame

/-- Modelled from the spec: a frame as constructed, before `Init` (the constructor of
`tsuba::FileFrame` is missing). -/
def new : FileFrame :=
  { valid := false, bytes := [], destination := none, persisted := false, isClosed := false }

/-- Modelled from the spec: `init(reserveBytes?)` allocates the growable buffer
(`FileFrame::Init` is missing); the reservation does not change the content. -/
def Init (ff : FileFrame) (_reserve : Option Nat) : Status × FileFrame :=
  (.ok, { ff with valid := true, bytes := [], persisted := false, isClosed := false })

/-- Modelled from the spec: `write(bytes)` appends to the accumulated bytes
(`FileFrame::Write` on raw bytes is missing).  Writing to a frame without buffer, before
`Init` or after `Close`, is the fatal violation of §7; writing after a persist is an
explicit error (§9). -/
def Write (ff : FileFrame) (bytes : List Nat) : Status × FileFrame :=
  if ¬ ff.valid ∨ ff.isClosed then (.fatal, ff)
  else if ff.persisted then (.failure, ff)
  else (.ok, { ff with bytes := ff.bytes ++ bytes })

/-- Modelled from the spec: the second entry point of `write`, taking a pre-built buffer
object (`FileFrame::Write` on an `arrow::Buffer` is missing); it must produce the
same concatenated content as the first. -/
def WriteBuffer (ff : FileFrame) (buf : Buffer) : Status × FileFrame :=
  if ¬ ff.valid ∨ ff.isClosed then (.fatal, ff)
  else if ff.persisted then (.failure, ff)
  else (.ok, { ff with bytes := ff.bytes ++ buf.data })

/-- Modelled from the spec: `bind(destination)` attaches a target identifier
(`FileFrame::Bind` is missing). -/
def Bind (ff : FileFrame) (destination : String) : Status × FileFrame :=
  if ¬ ff.valid ∨ ff.isClosed then (.failure, ff)
  else (.ok, { ff with destination := some destination })

/-- Modelled from the spec: `persist()` flushes the accumulated bytes to the bound
destination and fails if no destination is bound yet (`FileFrame::Persist` is
missing). -/
def Persist (storage : Storage) (ff : FileFrame) : Status × Storage × FileFrame :=
  if ¬ ff.valid ∨ ff.isClosed then (.failure, storage, ff)
  else
    match ff.destination with
    | none => (.failure, storage, ff)
    | some destination =>
      (.ok, storage.store destination ff.bytes, { ff with persisted := true })

/-- Modelled from the spec: `close()` releases the resources of the frame
(`FileFrame::Close` is missing). -/
def Close (ff : FileFrame) : Status × FileFrame :=
  (.ok, { ff with valid := false, bytes := [], isClosed := true })

/-- Modelled from the spec: `isClosed()` reports the terminal state
(`FileFrame::closed` is missing). -/
def closed (ff : FileFrame) : Bool :=
  ff.isClosed

/-- Submission of one chunk through the entry point of its kind. -/
def writeChunk (ff : FileFrame) : Chunk → Status × FileFrame
  | .raw bytes => ff.Write bytes
  | .buffer buf => ff.WriteBuffer buf

/-- Submission of a sequence of chunks in order; it stops at the first write that does
not succeed. -/
def writeChunks (ff : FileFrame) : List Chunk → Status × FileFrame
  | [] => (.ok, ff)
  | c :: cs =>
    match ff.writeChunk c with
    | (.ok, ff) => ff.writeChunks cs
    | r => r

end FileFrame

/-- Modelled from the spec: the state of a read view (`tsuba::FileView`, whose
implementation is missing): the bytes of the object it is bound to (`none` while
unbound), the cursor, and the closed mark. -/
structure FileView where
  object : Option (List Nat)
  cursor : Nat
  isClosed : Bool
  deriving DecidableEq

namespace FileView

/-- Modelled from the spec: a view as constructed, unbound (the constructor of
`tsuba::FileView` is missing). -/
def new : FileView :=
  { object := none, cursor := 0, isClosed := false }

/-- Modelled from the spec: `bind(destination)` opens the named object for reading and
fails, without residual state, if it does not exist (`FileView::Bind` is missing). -/
def Bind (storage : Storage) (fv : FileView) (destination : String) : Status × FileView :=
  match storage destination with
  | none => (.failure, fv)
  | some bytes => (.ok, { object := some bytes, cursor := 0, isClosed := false })

/-- Modelled from the spec: `unbind` detaches the view from its object
(`FileView::Unbind` is missing). -/
def Unbind (fv : FileView) : Status × FileView :=
  (.ok, { fv with object := none, cursor := 0 })

/-- Modelled from the spec: `read(n)` returns the next up-to-`n` bytes from the cursor
and advances the cursor by the number returned (`FileView::Read` is missing); reading
an unbound or closed view is the fatal violation of §7. -/
def Read (fv : FileView) (n : Nat) : Status × List Nat × FileView :=
  match fv.object with
  | none => (.fatal, [], fv)
  | some bytes =>
    if fv.isClosed then (.fatal, [], fv)
    else
      let got := (bytes.drop fv.cursor).take n
      (.ok, got, { fv with cursor := fv.cursor + got.length })

/-- Modelled from the spec: `read(n, destBuffer)`, the variant with a buffer supplied by
the caller, with identical semantics (`FileView::Read` into a buffer is missing): the
count of bytes read and the caller's buffer, whose first bytes are replaced. -/
def ReadInto (fv : FileView) (n : Nat) (res : List Nat) : Status × Nat × List Nat × FileView :=
  match fv.Read n with
  | (.ok, got, fv) => (.ok, got.length, got ++ res.drop got.length, fv)
  | (st, _, fv) => (st, 0, res, fv)

/-- Modelled from the spec: `seek(offset)` repositions the cursor absolutely
(`FileView::Seek` is missing). -/
def Seek (fv : FileView) (offset : Nat) : Status × FileView :=
  (.ok, { fv with cursor := offset })

/-- Modelled from the spec: `tell()` reports the current cursor position
(`FileView::Tell` is missing). -/
def Tell (fv : FileView) : Status × Nat :=
  (.ok, fv.cursor)

/-- Modelled from the spec: `close()` releases the resources of the view
(`FileView::Close` is missing). -/
def Close (fv : FileView) : Status × FileView :=
  (.ok, { fv with object := none, isClosed := true })

/-- Modelled from the spec: `isClosed()` reports the terminal state
(`FileView::closed` is missing). -/
def closed (fv : FileView) : Bool :=
  fv.isClosed

end FileView

/-- The bytes of an object in the half-open range from `lo` to `hi`. -/
def byteRange (bytes : List Nat) (lo hi : Nat) : List Nat :=
  (bytes.drop lo).take (hi - lo)

/-- The frame after `Init` and the submission of the chunks. -/
def FileFrame.written (reserve : Option Nat) (chunks : List Chunk) : Status × FileFrame :=
  (FileFrame.new.Init reserve).2.writeChunks chunks

/-- The outcome of `Bind` then `Persist` on the frame holding the chunks. -/
def FileFrame.persistedAt (storage : Storage) (reserve : Option Nat) (chunks : List Chunk)
    (destination : String) : Status × Storage × FileFrame :=
  FileFrame.Persist storage ((FileFrame.written reserve chunks).2.Bind destination).2

/-- The frame of the test `silly` after its write of a buffer object, before `Bind`. -/
def sillyFrame : FileFrame :=
  ((FileFrame.new.Init (some 8)).2.WriteBuffer { data := [7, 1, 8, 2] }).2

/-- A store holding one object of five bytes. -/
def fiveByteStore : Storage :=
  Storage.store (fun _ => none) "silly" [10, 11, 12, 13, 14]

/-- The macro `EXP_WRITE_COUNT`. -/
def EXP_WRITE_COUNT : Nat := 15

/-- The macro `READ_PARTIAL`. -/
def READ_PARTIAL : Nat := 4567

/-- The loop of `exponential`: for `i` from the given value, `count` times,
`Write(ptr, 1 << i)`, asserting success, then `ptr += 1 << i; running += 1 << i`.
`none` when an assertion fails. -/
def exponentialWrites (bits : List Nat) :
    Nat → Nat → FileFrame → Nat → Nat → Option (FileFrame × Nat × Nat)
  | 0, _, ff, ptr, running => some (ff, ptr, running)
  | count + 1, i, ff, ptr, running =>
    match ff.Write ((bits.drop ptr).take (2 ^ i)) with
    | (.ok, ff) => exponentialWrites bits count (i + 1) ff (ptr + 2 ^ i) (running + 2 ^ i)
    | _ => none

/-- The test `exponential`: the storage afterwards, or `none` when one of its
assertions fails. -/
def exponential (storage : Storage) (bits : List Nat) (dir : String) : Option Storage :=
  let filename := dir ++ "exponential"
  match FileFrame.new.Init none with
  | (.ok, ff) =>
    match exponentialWrites bits EXP_WRITE_COUNT 0 ff 0 0 with
    | some (ff, _, running) =>
      match FileFrame.Persist storage (ff.Bind filename).2 with
      | (.ok, storage, _) =>
        if FileStat storage filename = some running then
          match FileView.Bind storage FileView.new filename with
          | (.ok, fv) =>
            match fv.Read running with
            | (.ok, aro_buf, _) =>
              if aro_buf.length = running ∧ aro_buf.take running = bits.take running
              then some storage else none
            | _ => none
          | _ => none
        else none
      | _ => none
    | none => none
  | _ => none

/-- The test `the_big_one`: the storage afterwards, or `none` when one of its
assertions fails. -/
def the_big_one (storage : Storage) (bits : List Nat) (num_bytes : Nat) (dir : String) :
    Option Storage :=
  let filename := dir ++ "the-big-one"
  match FileFrame.new.Init none with
  | (.ok, ff) =>
    match ff.Write (bits.take num_bytes) with
    | (.ok, ff) =>
      match FileFrame.Persist storage (ff.Bind filename).2 with
      | (.ok, storage, _) =>
        if FileStat storage filename = some num_bytes then
          match FileView.Bind storage FileView.new filename with
          | (.ok, fv) =>
            match fv.ReadInto READ_PARTIAL (List.replicate (8 * num_bytes) 0) with
            | (.ok, bytes_read, res, _) =>
              if bytes_read = READ_PARTIAL ∧ res.take READ_PARTIAL = bits.take READ_PARTIAL
              then some storage else none
            | _ => none
          | _ => none
        else none
      | _ => none
    | _ => none
  | _ => none

/-- The test `silly`: the storage afterwards, or `none` when one of its assertions
fails. -/
def silly (storage : Storage) (bits : List Nat) (num_bytes : Nat) (dir : String) :
    Option Storage :=
  let filename := dir ++ "silly"
  match FileFrame.new.Init (some (num_bytes * 2)) with
  | (.ok, ff) =>
    if (FileFrame.Persist storage ff).1 = .ok then none
    else
      match ff.WriteBuffer { data := bits.take num_bytes } with
      | (.ok, ff) =>
        if (FileFrame.Persist storage ff).1 = .ok then none
        else
          match FileFrame.Persist storage (ff.Bind filename).2 with
          | (.ok, storage, ff) =>
            if FileStat storage filename = some num_bytes then
              if (FileView.Bind storage FileView.new (filename ++ "not-a-file")).1 = .ok then none
              else
                match FileView.Bind storage FileView.new filename with
                | (.ok, fv) =>
                  match fv.Seek (num_bytes - READ_PARTIAL) with
                  | (.ok, fv) =>
                    if fv.Tell = (.ok, num_bytes - READ_PARTIAL) then
                      match fv.Read num_bytes with
                      | (.ok, aro_buff, fv) =>
                        if aro_buff.length = READ_PARTIAL ∧
                            aro_buff.take READ_PARTIAL
                              = (bits.drop (num_bytes - READ_PARTIAL)).take READ_PARTIAL ∧
                            fv.Close.1 = .ok ∧ fv.Close.2.closed = true ∧
                            ff.Close.1 = .ok ∧ ff.Close.2.closed = true
                        then some storage else none
                      | _ => none
                    else none
                  | _ => none
                | _ => none
            else none
          | _ => none
      | _ => none
  | _ => none

/-- The three tests as `main` runs them, on `1 << EXP_WRITE_COUNT` bytes. -/
def fileobjectsMain (storage : Storage) (bits : List Nat) (temp_dir : String) : Option Storage :=
  let num_bytes := 2 ^ EXP_WRITE_COUNT
  match exponential storage bits temp_dir with
  | some storage =>
    match the_big_one storage bits num_bytes temp_dir with
    | some storage => silly storage bits num_bytes temp_dir
    | none => none
  | none => none

/-- Number of bytes written by `count` rounds of the loop of `exponential` starting at
round `i`. -/
def exponentialTotal : Nat → Nat → Nat
  | 0, _ => 0
  | count + 1, i => 2 ^ i + exponentialTotal count (i + 1)

/-- Modelled from the spec: the part header (`RDGPartHeader.h` is missing), structured
metadata of a partition carrying at least the storage path of the topology; the rest of
the metadata is kept as an uninterpreted list of entries. -/
structure RDGPartHeader where
  topology_path_ : String
  metadata_ : List (String × String)
  deriving DecidableEq

/-- Modelled from the spec: the accessor of the topology path
(`RDGPartHeader::topology_path` is missing). -/
def RDGPartHeader.topology_path (header : RDGPartHeader) : String :=
  header.topology_path_

/-- Modelled from the spec: the mutator of the topology path
(`RDGPartHeader::set_topology_path` is missing); it replaces the path and nothing
else. -/
def RDGPartHeader.set_topology_path (header : RDGPartHeader) (path : String) : RDGPartHeader :=
  { header with topology_path_ := path }

/-- The data members of `tsuba::RDGCore`.  `Table` stands for the columnar table
(`arrow::Table`), which the class only stores. -/
structure RDGCore (Table : Type) where
  node_table_ : Table
  edge_table_ : Table
  topology_file_storage_ : FileView
  part_header_ : RDGPartHeader

/-- The method `RDGCore::RegisterTopologyFile`: it sets the topology path of the part
header and returns the result of `Unbind` on the topology view. -/
def RDGCore.RegisterTopologyFile {Table : Type} (core : RDGCore Table) (new_top : String) :
    Status × RDGCore Table :=
  let core := { core with part_header_ := core.part_header_.set_topology_path new_top }
  let r := core.topology_file_storage_.Unbind
  (r.1, { core with topology_file_storage_ := r.2 })

/-- The constant `removed` of `Verify.cpp`: the least significant bit of an edge weight
marks the removal of the edge. -/
def removed : Nat := 0x1

/-- An edge as the function sees it through an edge iterator: `getEdgeDst` and
`getEdgeData`. -/
structure GraphEdge where
  dst : Nat
  data : Nat
  deriving DecidableEq

/-- The graph type `LC_CSR_Graph<void, uint32_t>` is declared outside the sources; of it
the function uses the edge range of a node, from `edge_begin` to `edge_end`, given here
as the list of the edges in iteration order.  An edge iterator is the list of the edges
from its position to the end of the range. -/
structure Graph where
  edges : Nat → List GraphEdge

/-- The inner loop `while (I != E && (g.getEdgeData(I) & removed)) ++I;`: the iterator
advanced to the first edge that is not removed. -/
def skipRemoved : List GraphEdge → List GraphEdge
  | [] => []
  | e :: es => if e.data &&& removed ≠ 0 then skipRemoved es else e :: es

/-- The loop `while (true)` of `isSupportNoLessThanJ`, with a bound on the number of its
iterations; `none` when the bound is reached. -/
def supportLoop : Nat → List GraphEdge → List GraphEdge → Nat → Nat → Option Bool
  | 0, _, _, _, _ => none
  | fuel + 1, srcI, dstI, numValidEqual, j =>
    match skipRemoved srcI, skipRemoved dstI with
    | [], _ => some (decide (numValidEqual ≥ j))
    | _ :: _, [] => some (decide (numValidEqual ≥ j))
    | s :: srcI, d :: dstI =>
      if s.dst < d.dst then supportLoop fuel srcI (d :: dstI) numValidEqual j
      else if d.dst < s.dst then supportLoop fuel (s :: srcI) dstI numValidEqual j
      else
        if numValidEqual + 1 ≥ j then some true
        else supportLoop fuel srcI dstI (numValidEqual + 1) j

/-- The function `isSupportNoLessThanJ`. -/
def isSupportNoLessThanJ (fuel : Nat) (g : Graph) (src dst j : Nat) : Option Bool :=
  supportLoop fuel (g.edges src) (g.edges dst) 0 j

/-- The destinations of the edges of a range that are not removed. -/
def validDestinations (es : List GraphEdge) : List Nat :=
  (es.filter (fun e => e.data &&& removed = 0)).map (fun e => e.dst)

/-- The number of nodes that are the destination of a non-removed edge of `src` and
also of a non-removed edge of `dst`. -/
def support (g : Graph) (src dst : Nat) : Nat :=
  ((validDestinations (g.edges src)).toFinset ∩ (validDestinations (g.edges dst)).toFinset).card

/-- An adjacency list strictly increasing by destination. -/
def StrictlyIncreasing (es : List GraphEdge) : Prop :=
  es.Pairwise (fun a b => a.dst < b.dst)

instance (es : List GraphEdge) : Decidable (StrictlyIncreasing es) := by
  unfold StrictlyIncreasing
  infer_instance

/-- The count the merge works towards: the valid destinations of the first range found
among the valid destinations of the second. -/
def commonValid (a b : List GraphEdge) : Nat :=
  ((validDestinations a).filter (fun x => x ∈ validDestinations b)).length

/-- A graph in which nodes 0 and 1 have four edges each; the edge of node 0 to node 2 is
removed, and the common destinations of non-removed edges are nodes 3 and 5. -/
def sampleGraph : Graph :=
  { edges := fun n =>
      if n = 0 then [⟨1, 0⟩, ⟨2, 1⟩, ⟨3, 0⟩, ⟨5, 4⟩]
      else if n = 1 then [⟨0, 0⟩, ⟨2, 0⟩, ⟨3, 2⟩, ⟨5, 0⟩]
      else [] }

namespace BufferedGraph

/-- The bytes one reader call counts: the width of the entry when the call gets as far
as the increment of its counter, and 0 when it dies, fails an assertion or returns
before. -/
def countedBytes (edgeDataSize : Option Nat) (g : BufferedGraph) : Access → Nat
  | .edgeBegin n =>
    if g.graphLoaded = true ∧ g.numLocalNodes ≠ 0 ∧ g.nodeOffset ≤ n ∧
        n < (g.nodeOffset + g.numLocalNodes) % U64 ∧ n - g.nodeOffset ≠ 0 then 8 else 0
  | .edgeEnd n =>
    if g.graphLoaded = true ∧ g.numLocalNodes ≠ 0 ∧ g.nodeOffset ≤ n ∧
        n < (g.nodeOffset + g.numLocalNodes) % U64 then 8 else 0
  | .edgeDestination e =>
    if g.graphLoaded = true ∧ g.numLocalEdges ≠ 0 ∧ g.edgeOffset ≤ e ∧
        e < (g.edgeOffset + g.numLocalEdges) % U64 then 4 else 0
  | .edgeData e =>
    match edgeDataSize with
    | none => 0
    | some sz =>
      if g.graphLoaded = true ∧ g.edgeDataBuffer.isSome = true ∧ g.numLocalEdges ≠ 0 ∧
          g.edgeOffset ≤ e ∧ e < (g.edgeOffset + g.numLocalEdges) % U64 then sz else 0
  | .getBytesRead => 0

/-- The bytes a sequence of reader calls counts, each call taken in the state the calls
before it leave. -/
def countedTotal (edgeDataSize : Option Nat) (g : BufferedGraph) : List Access → Nat
  | [] => 0
  | c :: cs => countedBytes edgeDataSize g c + countedTotal edgeDataSize (access edgeDataSize g c) cs

end BufferedGraph

/-- The loaded scenario file after one call of `edgeEnd(0)`. -/
def countedOnce : BufferedGraph :=
  BufferedGraph.access (some 4) scenarioLoad.2.1 (BufferedGraph.Access.edgeEnd 0)

/-- The loaded scenario file with the out-index counter eight bytes below its wrap. -/
def nearWrap : BufferedGraph :=
  { scenarioLoad.2.1 with numBytesReadOutIndex := 2 ^ 64 - 8 }

end Katana

/-! ## Theorems -/

namespace Katana

namespace BufferedGraph

theorem readLoop_done (fuel : Nat) (f : IfStream) (buf : List Nat) (bytesRead : Nat) :
    readLoop fuel f buf 0 bytesRead = (true, f, buf) := by
  cases fuel <;> simp [readLoop]

theorem read_failed (f : IfStream) (n : Nat) (h : f.failbit = true) :
    (f.read n).1 = [] ∧ (f.read n).2.failbit = true := by
  simp [IfStream.read, h]

/-- On a failed stream the loop is never left: every iteration reads nothing. -/
theorem readLoop_failed (fuel : Nat) :
    ∀ (f : IfStream) (buf : List Nat) (n bytesRead : Nat),
      f.failbit = true → n ≠ 0 → n < U64 → (readLoop fuel f buf n bytesRead).1 = false := by
  induction fuel with
  | zero => intro f buf n bytesRead _ hn _; simp [readLoop, hn]
  | succ fuel ih =>
    intro f buf n bytesRead hf hn hlt
    have hr := read_failed f n hf
    simp only [readLoop, hn, if_false]
    rw [hr.1]
    have hmod : (n + U64 - ([] : List Nat).length) % U64 = n := by
      simp [Nat.mod_eq_of_lt hlt]
    rw [hmod]
    exact ih _ _ _ _ hr.2 hn hlt

theorem access_graphLoaded (edgeDataSize : Option Nat) (g : BufferedGraph) (c : Access) :
    (access edgeDataSize g c).graphLoaded = g.graphLoaded := by
  cases c with
  | edgeBegin n =>
    simp only [access, edgeBegin]
    split_ifs <;> try rfl
    split <;> rfl
  | edgeEnd n =>
    simp only [access, edgeEnd]
    split_ifs <;> try rfl
    split <;> rfl
  | edgeDestination e =>
    simp only [access, edgeDestination]
    split_ifs <;> try rfl
    split <;> rfl
  | edgeData e =>
    cases edgeDataSize with
    | none => rfl
    | some sz =>
      simp only [access, edgeData]
      split_ifs <;> try rfl
      split <;> rfl
  | getBytesRead => rfl

theorem accesses_graphLoaded (edgeDataSize : Option Nat) (calls : List Access) :
    ∀ g : BufferedGraph, (accesses edgeDataSize g calls).graphLoaded = g.graphLoaded := by
  induction calls with
  | nil => intro g; rfl
  | cons c cs ih =>
    intro g
    simp only [accesses, List.foldl_cons] at ih ⊢
    rw [ih, access_graphLoaded]

/-- The stages of a load that returns. -/
theorem loadPartialGraph_ok_inv {edgeDataSize : Option Nat} {env : Env} {fuel : Nat}
    {g : BufferedGraph} {filename : String}
    {nodeStart nodeEnd edgeStart edgeEnd numGlobalNodes numGlobalEdges : Nat}
    {g' : BufferedGraph} {tr : List StreamEvent} {o : Outcome Unit}
    (h : loadPartialGraph edgeDataSize env fuel g filename nodeStart nodeEnd edgeStart edgeEnd
      numGlobalNodes numGlobalEdges = (o, g', tr)) (ho : o = .ok ()) :
    g.graphLoaded = false ∧ nodeStart ≤ nodeEnd ∧ edgeStart ≤ edgeEnd ∧
    ∃ g1 f1 g2 f2 g3 f3,
      loadOutIndex env fuel { g with numLocalNodes := nodeEnd - nodeStart }
        (IfStream.openFile env filename) nodeStart (nodeEnd - nodeStart) = (.ok (), g1, f1) ∧
      loadEdgeDest env fuel { g1 with numLocalEdges := edgeEnd - edgeStart } f1 edgeStart
        (edgeEnd - edgeStart) numGlobalNodes = (.ok (), g2, f2) ∧
      loadEdgeData edgeDataSize env fuel g2 f2 edgeStart g2.numLocalEdges numGlobalNodes
        numGlobalEdges = (.ok (), g3, f3) ∧
      g' = { g3 with graphLoaded := true } ∧ tr = f3.trace := by
  subst ho
  unfold loadPartialGraph at h
  by_cases hl : g.graphLoaded = true
  · rw [if_pos hl] at h; simp at h
  by_cases hn : nodeStart ≤ nodeEnd
  swap
  · rw [if_neg hl] at h; dsimp only at h; rw [if_pos hn] at h; simp at h
  rw [if_neg hl] at h
  dsimp only at h
  rw [if_neg (not_not.mpr hn)] at h
  generalize h1 : loadOutIndex env fuel { g with numLocalNodes := nodeEnd - nodeStart }
        (IfStream.openFile env filename) nodeStart (nodeEnd - nodeStart) = r1 at h
  obtain ⟨o1, g1, f1⟩ := r1
  cases o1 <;> try (simp at h; done)
  dsimp only at h
  by_cases he : edgeStart ≤ edgeEnd
  swap
  · rw [if_pos he] at h; simp at h
  rw [if_neg (not_not.mpr he)] at h
  generalize h2 : loadEdgeDest env fuel { g1 with numLocalEdges := edgeEnd - edgeStart } f1
        edgeStart (edgeEnd - edgeStart) numGlobalNodes = r2 at h
  obtain ⟨o2, g2, f2⟩ := r2
  cases o2 <;> try (simp at h; done)
  dsimp only at h
  generalize h3 : loadEdgeData edgeDataSize env fuel g2 f2 edgeStart g2.numLocalEdges
        numGlobalNodes numGlobalEdges = r3 at h
  obtain ⟨o3, g3, f3⟩ := r3
  cases o3 <;> try (simp at h; done)
  simp only [Prod.mk.injEq, true_and] at h
  refine ⟨by simpa using hl, hn, he, g1, f1, g2, f2, g3, f3, rfl, h2, h3, h.1.symm, h.2.symm⟩

/-- With a source that cannot be opened and a node range that is not empty, no
amount of fuel lets the load return or die: the first read loop spins on a failed
stream. -/
theorem loadPartialGraph_unopened_hangs (edgeDataSize : Option Nat) (env : Env) (fuel : Nat)
    (filename : String) (nodeStart nodeEnd edgeStart edgeEnd numGlobalNodes numGlobalEdges : Nat)
    (hfile : env.files filename = none) (hsize : ((nodeEnd - nodeStart) * 8) % U64 ≠ 0)
    (hmalloc : env.mallocFails ((8 * (nodeEnd - nodeStart)) % U64) = false) :
    (loadPartialGraph edgeDataSize env fuel new filename nodeStart nodeEnd edgeStart edgeEnd
      numGlobalNodes numGlobalEdges).1 = .hang := by
  have hne : nodeEnd - nodeStart ≠ 0 := by
    intro h0
    rw [h0] at hsize
    simp at hsize
  have hle : nodeStart ≤ nodeEnd := by omega
  have hfail : ((IfStream.openFile env filename).seekg (outIndexReadPosition nodeStart)).failbit
      = true := by
    simp [IfStream.openFile, hfile, IfStream.seekg]
  have hloop := readLoop_failed fuel _ (List.replicate ((8 * (nodeEnd - nodeStart)) % U64) 0)
    (((nodeEnd - nodeStart) * 8) % U64) 0 hfail hsize (Nat.mod_lt _ (by decide))
  unfold loadPartialGraph
  rw [if_neg (by simp [new, resetReadCounters])]
  dsimp only
  rw [if_neg (not_not.mpr hle)]
  have hout : (loadOutIndex env fuel { new with numLocalNodes := nodeEnd - nodeStart }
      (IfStream.openFile env filename) nodeStart (nodeEnd - nodeStart)).1 = .hang := by
    unfold loadOutIndex
    rw [if_neg hne, if_neg (by simp [new, resetReadCounters])]
    dsimp only
    rw [if_neg (by simp [hmalloc])]
    rw [if_neg (by simp [hloop])]
  generalize loadOutIndex env fuel { new with numLocalNodes := nodeEnd - nodeStart }
      (IfStream.openFile env filename) nodeStart (nodeEnd - nodeStart) = r1 at hout
  obtain ⟨o1, g1, f1⟩ := r1
  simp only at hout
  subst hout
  rfl

/-- C10: on a loader whose edge-data type is `void`, `edgeData(e)` returns 0 in every
state of the object and for every global edge id, and leaves the object as it was. -/
theorem edgeData_void_returns_default (g : BufferedGraph) (globalEdgeID : Nat) :
    edgeData none g globalEdgeID = (.ok 0, g) := by
  rfl

/-- C8: once a load has returned, whatever reader calls follow, a further load with any
arguments dies with the diagnostic of the double load, without opening the source and
without changing any member of the object. -/
theorem load_at_most_once (edgeDataSize : Option Nat) (env : Env) (fuel : Nat)
    (g : BufferedGraph) (filename : String)
    (nodeStart nodeEnd edgeStart edgeEnd numGlobalNodes numGlobalEdges : Nat)
    (h : (loadPartialGraph edgeDataSize env fuel g filename nodeStart nodeEnd edgeStart edgeEnd
      numGlobalNodes numGlobalEdges).1 = .ok ())
    (calls : List Access) (env2 : Env) (fuel2 : Nat) (filename2 : String)
    (nodeStart2 nodeEnd2 edgeStart2 edgeEnd2 numGlobalNodes2 numGlobalEdges2 : Nat) :
    loadPartialGraph edgeDataSize env2 fuel2
        (accesses edgeDataSize (loadPartialGraph edgeDataSize env fuel g filename nodeStart nodeEnd
          edgeStart edgeEnd numGlobalNodes numGlobalEdges).2.1 calls)
        filename2 nodeStart2 nodeEnd2 edgeStart2 edgeEnd2 numGlobalNodes2 numGlobalEdges2
      = (.die .loadedTwice,
         accesses edgeDataSize (loadPartialGraph edgeDataSize env fuel g filename nodeStart nodeEnd
          edgeStart edgeEnd numGlobalNodes numGlobalEdges).2.1 calls, []) := by
  generalize hr : loadPartialGraph edgeDataSize env fuel g filename nodeStart nodeEnd edgeStart
    edgeEnd numGlobalNodes numGlobalEdges = r at h
  obtain ⟨o, g1, tr⟩ := r
  obtain ⟨_, _, _, g1', f1, g2, f2, g3, f3, _, _, _, hg, _⟩ := loadPartialGraph_ok_inv hr h
  have hl : (accesses edgeDataSize g1 calls).graphLoaded = true := by
    rw [accesses_graphLoaded, hg]
  unfold loadPartialGraph
  rw [if_pos hl]

/-- An instance of C8: after the load of the scenario file and two reader calls, a load of
another file with other ranges dies and leaves the object as it was. -/
theorem load_at_most_once_witness :
    (loadPartialGraph (some 4) (machineWith scenarioFile) 1 new "graph" 0 3 0 4 3 4).1 = .ok () ∧
    loadPartialGraph (some 4) (machineWith []) 0
        (accesses (some 4)
          (loadPartialGraph (some 4) (machineWith scenarioFile) 1 new "graph" 0 3 0 4 3 4).2.1
          [Access.edgeEnd 0, Access.edgeDestination 1])
        "other" 1 2 3 4 5 6
      = (.die .loadedTwice,
         accesses (some 4)
          (loadPartialGraph (some 4) (machineWith scenarioFile) 1 new "graph" 0 3 0 4 3 4).2.1
          [Access.edgeEnd 0, Access.edgeDestination 1], []) :=
  ⟨by decide, load_at_most_once (some 4) (machineWith scenarioFile) 1 new "graph" 0 3 0 4 3 4
    (by decide) _ _ _ _ _ _ _ _ _ _⟩

/-- C9: a load of empty ranges from a source that cannot be opened returns normally
and marks the fresh instance loaded; no fatal error is raised. -/
theorem load_unopened_empty_ranges :
    loadPartialGraph none (machineWith scenarioFile) 0 new "missing" 0 0 0 0 3 4
      = (.ok (), { new with graphLoaded := true }, []) := by
  decide

/-- A buffer sized to `k` entries holds each of the entries `0 .. k-1`. -/
theorem bufferEntry_of_size (buf : Option (List Nat)) (width k i : Nat) (hw : 0 < width)
    (hsize : bufferSize buf = width * k) (hi : i < k) :
    ∃ v, bufferEntry buf width i = some v := by
  have hle : (i + 1) * width ≤ width * k := by
    rw [Nat.mul_comm width k]
    exact Nat.mul_le_mul_right width hi
  cases buf with
  | none =>
    simp only [bufferSize] at hsize
    have : 0 < width * k := Nat.mul_pos hw (by omega)
    omega
  | some bytes =>
    simp only [bufferSize] at hsize
    refine ⟨leValue ((bytes.drop (i * width)).take width), ?_⟩
    simp only [bufferEntry]
    rw [if_pos (by omega)]

/-- C2: on a loaded instance, for every global node id of the local range, `edgeEnd`
returns the out-index entry stored for the node, and `edgeBegin` returns the entry of
the node before it, or `edgeOffset` for the first local node; and for the file with
out-index 2, 3, 4 loaded whole, `edgeBegin(0) = 0`, `edgeEnd(0) = 2`,
`edgeBegin(1) = 2`, `edgeEnd(2) = 4`. -/
theorem edgeBegin_edgeEnd_of_loaded (g : BufferedGraph) (hg : Loaded g) (n : Nat)
    (hlo : g.nodeOffset ≤ n) (hhi : n < g.nodeOffset + g.numLocalNodes) :
    (∃ v, bufferEntry g.outIndexBuffer 8 (n - g.nodeOffset) = some v ∧
        (edgeEnd g n).1 = .ok v) ∧
    (n ≠ g.nodeOffset →
      ∃ v, bufferEntry g.outIndexBuffer 8 (n - 1 - g.nodeOffset) = some v ∧
        (edgeBegin g n).1 = .ok v) ∧
    (n = g.nodeOffset → (edgeBegin g n).1 = .ok g.edgeOffset) ∧
    scenarioLoad.1 = .ok () ∧
    (edgeBegin scenarioLoad.2.1 0).1 = .ok 0 ∧
    (edgeEnd scenarioLoad.2.1 0).1 = .ok 2 ∧
    (edgeBegin scenarioLoad.2.1 1).1 = .ok 2 ∧
    (edgeEnd scenarioLoad.2.1 2).1 = .ok 4 := by
  obtain ⟨hl, hsz, _, hfit, _⟩ := hg
  have hne : g.numLocalNodes ≠ 0 := by omega
  have hmod : (g.nodeOffset + g.numLocalNodes) % U64 = g.nodeOffset + g.numLocalNodes :=
    Nat.mod_eq_of_lt hfit
  refine ⟨?_, ?_, ?_, by decide, by decide, by decide, by decide, by decide⟩
  · obtain ⟨v, hv⟩ := bufferEntry_of_size g.outIndexBuffer 8 g.numLocalNodes (n - g.nodeOffset)
      (by decide) hsz (by omega)
    refine ⟨v, hv, ?_⟩
    unfold edgeEnd
    rw [if_neg (by simp [hl]), if_neg hne, if_neg (not_not.mpr hlo),
      if_neg (by rw [hmod]; exact not_not.mpr hhi)]
    dsimp only
    rw [hv]
  · intro hn
    obtain ⟨v, hv⟩ := bufferEntry_of_size g.outIndexBuffer 8 g.numLocalNodes
      (n - 1 - g.nodeOffset) (by decide) hsz (by omega)
    refine ⟨v, hv, ?_⟩
    unfold edgeBegin
    rw [if_neg (by simp [hl]), if_neg hne, if_neg (not_not.mpr hlo),
      if_neg (by rw [hmod]; exact not_not.mpr hhi)]
    dsimp only
    rw [if_pos (by omega)]
    have hidx : n - g.nodeOffset - 1 = n - 1 - g.nodeOffset := by omega
    rw [hidx, hv]
  · intro hn
    unfold edgeBegin
    rw [if_neg (by simp [hl]), if_neg hne, if_neg (not_not.mpr hlo),
      if_neg (by rw [hmod]; exact not_not.mpr hhi)]
    dsimp only
    rw [if_neg (by omega)]

/-- An instance of C2: node 1 of the loaded scenario file. -/
theorem edgeBegin_edgeEnd_of_loaded_witness :
    Loaded scenarioLoad.2.1 ∧
    ∃ v, bufferEntry scenarioLoad.2.1.outIndexBuffer 8 (1 - scenarioLoad.2.1.nodeOffset) = some v ∧
      (edgeEnd scenarioLoad.2.1 1).1 = .ok v :=
  ⟨by decide,
   (edgeBegin_edgeEnd_of_loaded scenarioLoad.2.1 (by decide) 1 (by decide) (by decide)).1⟩

/-- C3, as stated, fails: an instance loaded with an empty edge range returns 0 from
`edgeDestination(7)` although no edge id lies in its local range. -/
theorem edgeDestination_bounds_counterexample :
    noEdgesLoad.1 = .ok () ∧ Loaded noEdgesLoad.2.1 ∧
    ¬ (noEdgesLoad.2.1.edgeOffset ≤ 7 ∧
        7 < noEdgesLoad.2.1.edgeOffset + noEdgesLoad.2.1.numLocalEdges) ∧
    (edgeDestination noEdgesLoad.2.1 7).1 = .ok 0 := by
  decide

/-- C3, amended: on a loaded instance with at least one local edge, `edgeDestination(e)`
returns a value exactly when `e` lies in the local edge range, the value is the
destination stored at local index `e - edgeOffset`, and outside the range the call
fails its assertion; on a loaded instance without local edges it returns 0 for every
`e`. -/
theorem edgeDestination_bounds (g : BufferedGraph) (hg : Loaded g) (e : Nat) :
    (g.numLocalEdges = 0 → edgeDestination g e = (.ok 0, g)) ∧
    (0 < g.numLocalEdges →
      ((edgeDestination g e).1.returns = true ↔
        g.edgeOffset ≤ e ∧ e < g.edgeOffset + g.numLocalEdges) ∧
      (g.edgeOffset ≤ e ∧ e < g.edgeOffset + g.numLocalEdges →
        ∃ v, bufferEntry g.edgeDestBuffer 4 (e - g.edgeOffset) = some v ∧
          (edgeDestination g e).1 = .ok v) ∧
      (¬ (g.edgeOffset ≤ e ∧ e < g.edgeOffset + g.numLocalEdges) →
        (edgeDestination g e).1 = .assertFail)) := by
  obtain ⟨hl, _, hsz, _, hfit⟩ := hg
  have hmod : (g.edgeOffset + g.numLocalEdges) % U64 = g.edgeOffset + g.numLocalEdges :=
    Nat.mod_eq_of_lt hfit
  have hin : g.edgeOffset ≤ e ∧ e < g.edgeOffset + g.numLocalEdges →
      ∃ v, bufferEntry g.edgeDestBuffer 4 (e - g.edgeOffset) = some v ∧
        (edgeDestination g e).1 = .ok v := by
    intro hr
    obtain ⟨v, hv⟩ := bufferEntry_of_size g.edgeDestBuffer 4 g.numLocalEdges (e - g.edgeOffset)
      (by decide) hsz (by omega)
    refine ⟨v, hv, ?_⟩
    unfold edgeDestination
    rw [if_neg (by simp [hl]), if_neg (by omega), if_neg (not_not.mpr hr.1),
      if_neg (by rw [hmod]; exact not_not.mpr hr.2)]
    dsimp only
    rw [hv]
  have hout : 0 < g.numLocalEdges →
      ¬ (g.edgeOffset ≤ e ∧ e < g.edgeOffset + g.numLocalEdges) →
      (edgeDestination g e).1 = .assertFail := by
    intro hpos hr
    unfold edgeDestination
    rw [if_neg (by simp [hl]), if_neg (by omega)]
    by_cases hlo : g.edgeOffset ≤ e
    · rw [if_neg (not_not.mpr hlo), if_pos (by rw [hmod]; omega)]
    · rw [if_pos hlo]
  refine ⟨?_, fun hpos => ⟨?_, hin, hout hpos⟩⟩
  · intro h0
    unfold edgeDestination
    rw [if_neg (by simp [hl]), if_pos h0]
  · constructor
    · intro hret
      by_contra hr
      rw [hout hpos hr] at hret
      simp [Outcome.returns] at hret
    · intro hr
      obtain ⟨v, _, hv⟩ := hin hr
      rw [hv]
      rfl

/-- An instance of the amended C3: on the loaded scenario file edge 2 is in range and
edge 4 is not. -/
theorem edgeDestination_bounds_witness :
    Loaded scenarioLoad.2.1 ∧ 0 < scenarioLoad.2.1.numLocalEdges ∧
    (edgeDestination scenarioLoad.2.1 2).1 = .ok 0 ∧
    (edgeDestination scenarioLoad.2.1 4).1 = .assertFail :=
  ⟨by decide, by decide,
   by
    obtain ⟨v, hv, hd⟩ :=
      ((edgeDestination_bounds scenarioLoad.2.1 (by decide) 2).2 (by decide)).2.1 (by decide)
    have hv0 : bufferEntry scenarioLoad.2.1.edgeDestBuffer 4
        (2 - scenarioLoad.2.1.edgeOffset) = some 0 := by decide
    rw [hv0] at hv
    injection hv with hv
    rw [hd, ← hv],
   ((edgeDestination_bounds scenarioLoad.2.1 (by decide) 4).2 (by decide)).2.2 (by decide)⟩

/-- C1: on the star file split at node 1 all three loads return and node 0 has the
same adjacency either way, but for node 1 the single load gives the empty adjacency
while the partial load covering it gives two edges to node 0: `loadEdgeDest` returns
before storing `edgeOffset` when the edge range is empty, so `edgeBegin(1)` is 0
instead of 2. -/
theorem partial_load_star_differs :
    starWhole.1 = .ok () ∧ starFirst.1 = .ok () ∧ starSecond.1 = .ok () ∧
    adjacency starWhole.2.1 0 = .ok [1, 2] ∧ adjacency starFirst.2.1 0 = .ok [1, 2] ∧
    adjacency starWhole.2.1 1 = .ok [] ∧ adjacency starSecond.2.1 1 = .ok [0, 0] ∧
    (edgeBegin starSecond.2.1 1).1 = .ok 0 ∧ (edgeEnd starSecond.2.1 1).1 = .ok 2 ∧
    starSecond.2.1.edgeOffset = 0 := by
  decide

theorem read_length_le (f : IfStream) (n : Nat) : (f.read n).1.length ≤ n := by
  unfold IfStream.read
  split_ifs
  · simp
  · simp only [List.length_take]
    split
    · exact Nat.min_le_left _ _
    · exact Nat.le_trans (Nat.min_le_left _ _) (Nat.min_le_right _ _)

theorem read_trace (f : IfStream) (n : Nat) :
    (f.read n).2.trace = f.trace ++ [StreamEvent.read n (f.read n).1.length] := by
  unfold IfStream.read
  split_ifs <;> simp

/-- A loop that is left has made only reads, and these delivered exactly the bytes asked
for. -/
theorem readLoop_trace (fuel : Nat) :
    ∀ (f : IfStream) (buf : List Nat) (n bytesRead : Nat), n < U64 →
      (readLoop fuel f buf n bytesRead).1 = true →
      ∃ r, (readLoop fuel f buf n bytesRead).2.1.trace = f.trace ++ r ∧
        (∀ ev ∈ r, isRead ev = true) ∧ delivered r = n := by
  induction fuel with
  | zero =>
    intro f buf n bytesRead _ h
    simp only [readLoop, decide_eq_true_eq] at h
    exact ⟨[], by simp [readLoop], by simp, by simp [delivered, h]⟩
  | succ fuel ih =>
    intro f buf n bytesRead hlt h
    by_cases hn : n = 0
    · subst hn
      exact ⟨[], by simp [readLoop], by simp, by simp [delivered]⟩
    · have hle := read_length_le f n
      have hsub : (n + U64 - (f.read n).1.length) % U64 = n - (f.read n).1.length := by
        have : n + U64 - (f.read n).1.length = (n - (f.read n).1.length) + U64 := by omega
        rw [this, Nat.add_mod_right]
        exact Nat.mod_eq_of_lt (by omega)
      simp only [readLoop, hn, if_false] at h ⊢
      rw [hsub] at h ⊢
      obtain ⟨r, htr, hreads, hdel⟩ := ih _ _ _ _ (by omega) h
      refine ⟨StreamEvent.read n (f.read n).1.length :: r, ?_, ?_, ?_⟩
      · rw [htr, read_trace]
        simp
      · intro ev hev
        rcases List.mem_cons.mp hev with h1 | h1
        · subst h1; rfl
        · exact hreads ev h1
      · simp only [delivered, hdel]
        omega

theorem seekg_trace (f : IfStream) (p : Nat) :
    (f.seekg p).trace = f.trace ++ [StreamEvent.seekg p] := by
  unfold IfStream.seekg
  split_ifs <;> rfl

/-- A stage `seekg`, then the read loop: when the loop is left, the stream has recorded
the seek followed by reads delivering the byte count. -/
theorem seek_readLoop_trace (fuel : Nat) (f : IfStream) (p : Nat) (buf : List Nat) (n : Nat)
    (hn : n < U64) (h : (readLoop fuel (f.seekg p) buf n 0).1 = true) :
    ∃ r, (readLoop fuel (f.seekg p) buf n 0).2.1.trace = f.trace ++ StreamEvent.seekg p :: r ∧
      (∀ ev ∈ r, isRead ev = true) ∧ delivered r = n := by
  obtain ⟨r, htr, hreads, hdel⟩ := readLoop_trace fuel (f.seekg p) buf n 0 hn h
  refine ⟨r, ?_, hreads, hdel⟩
  rw [htr, seekg_trace]
  simp

theorem loadOutIndex_ok {env : Env} {fuel : Nat} {g g' : BufferedGraph} {f f' : IfStream}
    {nodeStart k : Nat} (h : loadOutIndex env fuel g f nodeStart k = (.ok (), g', f'))
    (hk : k ≠ 0) :
    g'.numLocalNodes = g.numLocalNodes ∧ g'.numLocalEdges = g.numLocalEdges ∧
    ∃ r, f'.trace = f.trace ++ StreamEvent.seekg (outIndexReadPosition nodeStart) :: r ∧
      (∀ ev ∈ r, isRead ev = true) ∧ delivered r = (k * 8) % U64 := by
  unfold loadOutIndex at h
  rw [if_neg hk] at h
  dsimp only at h
  split_ifs at h with h1 h2 h3
  · simp at h
  · simp at h
  · simp only [Prod.mk.injEq, true_and] at h
    obtain ⟨hg, hf⟩ := h
    subst hg hf
    exact ⟨rfl, rfl, seek_readLoop_trace fuel f _ _ _ (Nat.mod_lt _ (by decide)) h3⟩
  · simp at h

theorem loadEdgeDest_ok {env : Env} {fuel : Nat} {g g' : BufferedGraph} {f f' : IfStream}
    {edgeStart k numGlobalNodes : Nat}
    (h : loadEdgeDest env fuel g f edgeStart k numGlobalNodes = (.ok (), g', f'))
    (hk : k ≠ 0) :
    g'.numLocalNodes = g.numLocalNodes ∧ g'.numLocalEdges = g.numLocalEdges ∧
    ∃ r, f'.trace = f.trace ++
        StreamEvent.seekg (edgeDestReadPosition edgeStart numGlobalNodes) :: r ∧
      (∀ ev ∈ r, isRead ev = true) ∧ delivered r = (k * 4) % U64 := by
  unfold loadEdgeDest at h
  rw [if_neg hk] at h
  dsimp only at h
  split_ifs at h with h1 h2 h3
  · simp at h
  · simp at h
  · simp only [Prod.mk.injEq, true_and] at h
    obtain ⟨hg, hf⟩ := h
    subst hg hf
    exact ⟨rfl, rfl, seek_readLoop_trace fuel f _ _ _ (Nat.mod_lt _ (by decide)) h3⟩
  · simp at h

theorem loadEdgeData_ok {env : Env} {fuel : Nat} {g g' : BufferedGraph} {f f' : IfStream}
    {sz edgeStart k numGlobalNodes numGlobalEdges : Nat}
    (h : loadEdgeData (some sz) env fuel g f edgeStart k numGlobalNodes numGlobalEdges
      = (.ok (), g', f'))
    (hk : k ≠ 0) :
    g'.numLocalNodes = g.numLocalNodes ∧ g'.numLocalEdges = g.numLocalEdges ∧
    ∃ r, f'.trace = f.trace ++
        StreamEvent.seekg (edgeDataReadPosition sz edgeStart numGlobalNodes numGlobalEdges) :: r ∧
      (∀ ev ∈ r, isRead ev = true) ∧ delivered r = (k * sz) % U64 := by
  unfold loadEdgeData at h
  dsimp only at h
  rw [if_neg hk] at h
  split_ifs at h with h1 h2 h3
  · simp at h
  · simp at h
  · simp only [Prod.mk.injEq, true_and] at h
    obtain ⟨hg, hf⟩ := h
    subst hg hf
    exact ⟨rfl, rfl, seek_readLoop_trace fuel f _ _ _ (Nat.mod_lt _ (by decide)) h3⟩
  · simp at h

theorem outIndexReadPosition_eq (nodeStart : Nat) :
    outIndexReadPosition nodeStart = (4 * 8 + nodeStart * 8) % U64 := by
  unfold outIndexReadPosition
  congr 1
  ring

theorem edgeDestReadPosition_eq (edgeStart numGlobalNodes : Nat) :
    edgeDestReadPosition edgeStart numGlobalNodes
      = ((4 + numGlobalNodes) * 8 + edgeStart * 4) % U64 := by
  unfold edgeDestReadPosition
  congr 1
  ring

theorem edgeDataReadPosition_eq (sz edgeStart numGlobalNodes numGlobalEdges : Nat) :
    edgeDataReadPosition sz edgeStart numGlobalNodes numGlobalEdges
      = ((4 + numGlobalNodes) * 8 + numGlobalEdges * 4
          + (if numGlobalEdges % 2 = 1 then 4 else 0) + edgeStart * sz) % U64 := by
  unfold edgeDataReadPosition
  dsimp only
  have hc : 4 * numGlobalEdges = numGlobalEdges * 4 := Nat.mul_comm _ _
  have hs : sz * edgeStart = edgeStart * sz := Nat.mul_comm _ _
  by_cases hodd : numGlobalEdges % 2 = 1
  · rw [if_pos (by omega), if_pos hodd, hc, hs]
    simp [Nat.add_mod]
  · rw [if_neg (by omega), if_neg hodd, hc, hs]
    simp [Nat.add_mod]

theorem writeAt_length (buf : List Nat) (off : Nat) (bytes : List Nat)
    (h : off + bytes.length ≤ buf.length) : (writeAt buf off bytes).length = buf.length := by
  unfold writeAt
  simp only [List.length_append, List.length_take, List.length_drop]
  omega

/-- The read loop keeps the size of the buffer: it stores inside the allocation. -/
theorem readLoop_length (fuel : Nat) :
    ∀ (f : IfStream) (buf : List Nat) (n bytesRead : Nat), buf.length < U64 →
      bytesRead + n = buf.length → (readLoop fuel f buf n bytesRead).2.2.length = buf.length := by
  induction fuel with
  | zero => intro f buf n bytesRead _ _; rfl
  | succ fuel ih =>
    intro f buf n bytesRead hlt hsum
    by_cases hn : n = 0
    · simp [readLoop, hn]
    · have hle := read_length_le f n
      have hsub : (n + U64 - (f.read n).1.length) % U64 = n - (f.read n).1.length := by
        have : n + U64 - (f.read n).1.length = (n - (f.read n).1.length) + U64 := by omega
        rw [this, Nat.add_mod_right]
        exact Nat.mod_eq_of_lt (by omega)
      have hadd : (bytesRead + (f.read n).1.length) % U64 = bytesRead + (f.read n).1.length :=
        Nat.mod_eq_of_lt (by omega)
      have hw := writeAt_length buf bytesRead (f.read n).1 (by omega)
      simp only [readLoop, hn, if_false]
      rw [hsub, hadd, ih _ _ _ _ (by rw [hw]; exact hlt) (by rw [hw]; omega), hw]

theorem loadOutIndex_ok_state {env : Env} {fuel : Nat} {g g' : BufferedGraph} {f f' : IfStream}
    {nodeStart k : Nat} (h : loadOutIndex env fuel g f nodeStart k = (.ok (), g', f')) :
    (k = 0 → g' = g ∧ f' = f) ∧
    (k ≠ 0 → g.outIndexBuffer = none ∧
      ∃ buf, g' = { g with outIndexBuffer := some buf, nodeOffset := nodeStart } ∧
        buf.length = (8 * k) % U64) := by
  unfold loadOutIndex at h
  constructor
  · intro hk
    rw [if_pos hk] at h
    simp only [Prod.mk.injEq, true_and] at h
    exact ⟨h.1.symm, h.2.symm⟩
  · intro hk
    rw [if_neg hk] at h
    dsimp only at h
    split_ifs at h with h1 h2 h3
    · simp at h
    · simp at h
    · simp only [Prod.mk.injEq, true_and] at h
      refine ⟨by simpa using h1, _, h.1.symm, ?_⟩
      rw [readLoop_length fuel _ _ _ _ (by simp [Nat.mod_lt _ (show 0 < U64 by decide)])
        (by simp [Nat.mul_comm])]
      simp
    · simp at h

theorem loadEdgeDest_ok_state {env : Env} {fuel : Nat} {g g' : BufferedGraph} {f f' : IfStream}
    {edgeStart k numGlobalNodes : Nat}
    (h : loadEdgeDest env fuel g f edgeStart k numGlobalNodes = (.ok (), g', f')) :
    (k = 0 → g' = g ∧ f' = f) ∧
    (k ≠ 0 → g.edgeDestBuffer = none ∧
      ∃ buf, g' = { g with edgeDestBuffer := some buf, edgeOffset := edgeStart } ∧
        buf.length = (4 * k) % U64) := by
  unfold loadEdgeDest at h
  constructor
  · intro hk
    rw [if_pos hk] at h
    simp only [Prod.mk.injEq, true_and] at h
    exact ⟨h.1.symm, h.2.symm⟩
  · intro hk
    rw [if_neg hk] at h
    dsimp only at h
    split_ifs at h with h1 h2 h3
    · simp at h
    · simp at h
    · simp only [Prod.mk.injEq, true_and] at h
      refine ⟨by simpa using h1, _, h.1.symm, ?_⟩
      rw [readLoop_length fuel _ _ _ _ (by simp [Nat.mod_lt _ (show 0 < U64 by decide)])
        (by simp [Nat.mul_comm])]
      simp
    · simp at h

theorem loadEdgeData_ok_state {edgeDataSize : Option Nat} {env : Env} {fuel : Nat}
    {g g' : BufferedGraph} {f f' : IfStream}
    {edgeStart k numGlobalNodes numGlobalEdges : Nat}
    (h : loadEdgeData edgeDataSize env fuel g f edgeStart k numGlobalNodes numGlobalEdges
      = (.ok (), g', f')) :
    g'.outIndexBuffer = g.outIndexBuffer ∧ g'.edgeDestBuffer = g.edgeDestBuffer ∧
    g'.numLocalNodes = g.numLocalNodes ∧ g'.numLocalEdges = g.numLocalEdges ∧
    g'.nodeOffset = g.nodeOffset ∧ g'.edgeOffset = g.edgeOffset ∧
    g'.graphLoaded = g.graphLoaded := by
  unfold loadEdgeData at h
  cases edgeDataSize with
  | none =>
    simp only [Prod.mk.injEq, true_and] at h
    rw [← h.1]
    simp
  | some sz =>
    dsimp only at h
    split_ifs at h with h0 h1 h2 h3
    · simp only [Prod.mk.injEq, true_and] at h
      rw [← h.1]
      simp
    · simp at h
    · simp at h
    · simp only [Prod.mk.injEq, true_and] at h
      rw [← h.1]
      simp
    · simp at h

/-- A load into a fresh instance that returns yields a loaded instance in the sense of
the data model, provided the ends of the ranges are `uint64_t` values and the sizes of
the two buffers do not wrap. -/
theorem loadPartialGraph_loaded {edgeDataSize : Option Nat} {env : Env} {fuel : Nat}
    {filename : String}
    {nodeStart nodeEnd edgeStart edgeEnd numGlobalNodes numGlobalEdges : Nat}
    {g' : BufferedGraph} {tr : List StreamEvent}
    (h : loadPartialGraph edgeDataSize env fuel new filename nodeStart nodeEnd edgeStart edgeEnd
      numGlobalNodes numGlobalEdges = (.ok (), g', tr))
    (hne : nodeEnd < U64) (hee : edgeEnd < U64)
    (hnodes : 8 * (nodeEnd - nodeStart) < U64) (hedges : 4 * (edgeEnd - edgeStart) < U64) :
    Loaded g' := by
  obtain ⟨_, hn, he, g1, f1, g2, f2, g3, f3, h1, h2, h3, hg, _⟩ := loadPartialGraph_ok_inv h rfl
  obtain ⟨hb3, hd3, hln3, hle3, hno3, heo3, _⟩ := loadEdgeData_ok_state h3
  have s1 := loadOutIndex_ok_state h1
  have s2 := loadEdgeDest_ok_state h2
  have hU : (0 : Nat) < U64 := by decide
  -- the object after the first stage
  have hg1 : bufferSize g1.outIndexBuffer = 8 * (nodeEnd - nodeStart) ∧
      g1.edgeDestBuffer = none ∧ g1.numLocalNodes = nodeEnd - nodeStart ∧
      g1.nodeOffset + (nodeEnd - nodeStart) < U64 ∧ g1.edgeOffset = 0 := by
    by_cases hk : nodeEnd - nodeStart = 0
    · obtain ⟨e1, _⟩ := s1.1 hk
      rw [e1]
      simp [bufferSize, new, resetReadCounters, hk, hU]
    · obtain ⟨_, buf, e1, hlen⟩ := s1.2 hk
      have hsum : nodeStart + (nodeEnd - nodeStart) < U64 := by
        rw [Nat.add_sub_cancel' hn]
        exact hne
      rw [e1]
      refine ⟨?_, rfl, rfl, hsum, rfl⟩
      show buf.length = _
      rw [hlen, Nat.mod_eq_of_lt hnodes]
  obtain ⟨hsz1, hd1, hln1, hfit1, heo1⟩ := hg1
  -- the object after the second stage
  have hg2 : bufferSize g2.outIndexBuffer = 8 * (nodeEnd - nodeStart) ∧
      bufferSize g2.edgeDestBuffer = 4 * (edgeEnd - edgeStart) ∧
      g2.numLocalNodes = nodeEnd - nodeStart ∧ g2.numLocalEdges = edgeEnd - edgeStart ∧
      g2.nodeOffset + (nodeEnd - nodeStart) < U64 ∧
      g2.edgeOffset + (edgeEnd - edgeStart) < U64 := by
    by_cases hk : edgeEnd - edgeStart = 0
    · obtain ⟨e2, _⟩ := s2.1 hk
      rw [e2]
      refine ⟨hsz1, ?_, hln1, rfl, hfit1, ?_⟩
      · show bufferSize g1.edgeDestBuffer = _
        rw [hd1, hk]
        rfl
      · show g1.edgeOffset + _ < U64
        rw [heo1, hk]
        exact hU
    · obtain ⟨_, buf, e2, hlen⟩ := s2.2 hk
      have hsum : edgeStart + (edgeEnd - edgeStart) < U64 := by
        rw [Nat.add_sub_cancel' he]
        exact hee
      rw [e2]
      refine ⟨hsz1, ?_, hln1, rfl, hfit1, hsum⟩
      show buf.length = _
      rw [hlen, Nat.mod_eq_of_lt hedges]
  obtain ⟨hsz2, hdz2, hln2, hle2, hfit2, hfe2⟩ := hg2
  subst hg
  refine ⟨rfl, ?_, ?_, ?_, ?_⟩
  · show bufferSize g3.outIndexBuffer = 8 * g3.numLocalNodes
    rw [hb3, hln3, hln2, hsz2]
  · show bufferSize g3.edgeDestBuffer = 4 * g3.numLocalEdges
    rw [hd3, hle3, hle2, hdz2]
  · show g3.nodeOffset + g3.numLocalNodes < U64
    rw [hno3, hln3, hln2]
    exact hfit2
  · show g3.edgeOffset + g3.numLocalEdges < U64
    rw [heo3, hle3, hle2]
    exact hfe2

theorem openFile_trace (env : Env) (filename : String) :
    (IfStream.openFile env filename).trace = [] := by
  unfold IfStream.openFile
  split <;> rfl

/-- C4, as stated, fails: for `nodeStart = 2 ^ 61` the load returns after seeking to
byte 32 for the out-index slice, not to byte `4 * 8 + nodeStart * 8`, which is beyond
`uint64_t`; and a load of empty ranges returns without any seek. -/
theorem load_seek_counterexample :
    wrappedLoad.1 = .ok () ∧ wrappedLoad.2.2.head? = some (StreamEvent.seekg 32) ∧
    32 ≠ 4 * 8 + 2 ^ 61 * 8 ∧
    emptyLoad.1 = .ok () ∧ emptyLoad.2.2 = [] := by
  decide

theorem loadOutIndex_stage {env : Env} {fuel : Nat} {g g' : BufferedGraph} {f f' : IfStream}
    {nodeStart k : Nat} (h : loadOutIndex env fuel g f nodeStart k = (.ok (), g', f')) :
    g'.numLocalNodes = g.numLocalNodes ∧ g'.numLocalEdges = g.numLocalEdges ∧
    ∃ r, f'.trace = f.trace ++ stageTrace (decide (k = 0)) (outIndexReadPosition nodeStart) r ∧
      (∀ ev ∈ r, isRead ev = true) ∧ delivered r = (k * 8) % U64 := by
  by_cases hk : k = 0
  · obtain ⟨hg, hf⟩ := (loadOutIndex_ok_state h).1 hk
    subst hg hf hk
    exact ⟨rfl, rfl, [], by simp [stageTrace], by simp, by simp [delivered]⟩
  · obtain ⟨h1, h2, r, htr, hr, hd⟩ := loadOutIndex_ok h hk
    exact ⟨h1, h2, r, by simpa [stageTrace, hk] using htr, hr, hd⟩

theorem loadEdgeDest_stage {env : Env} {fuel : Nat} {g g' : BufferedGraph} {f f' : IfStream}
    {edgeStart k numGlobalNodes : Nat}
    (h : loadEdgeDest env fuel g f edgeStart k numGlobalNodes = (.ok (), g', f')) :
    g'.numLocalNodes = g.numLocalNodes ∧ g'.numLocalEdges = g.numLocalEdges ∧
    ∃ r, f'.trace = f.trace ++
        stageTrace (decide (k = 0)) (edgeDestReadPosition edgeStart numGlobalNodes) r ∧
      (∀ ev ∈ r, isRead ev = true) ∧ delivered r = (k * 4) % U64 := by
  by_cases hk : k = 0
  · obtain ⟨hg, hf⟩ := (loadEdgeDest_ok_state h).1 hk
    subst hg hf hk
    exact ⟨rfl, rfl, [], by simp [stageTrace], by simp, by simp [delivered]⟩
  · obtain ⟨h1, h2, r, htr, hr, hd⟩ := loadEdgeDest_ok h hk
    exact ⟨h1, h2, r, by simpa [stageTrace, hk] using htr, hr, hd⟩

theorem loadEdgeData_stage {env : Env} {fuel : Nat} {g g' : BufferedGraph} {f f' : IfStream}
    {sz edgeStart k numGlobalNodes numGlobalEdges : Nat}
    (h : loadEdgeData (some sz) env fuel g f edgeStart k numGlobalNodes numGlobalEdges
      = (.ok (), g', f')) :
    g'.numLocalNodes = g.numLocalNodes ∧ g'.numLocalEdges = g.numLocalEdges ∧
    ∃ r, f'.trace = f.trace ++ stageTrace (decide (k = 0))
        (edgeDataReadPosition sz edgeStart numGlobalNodes numGlobalEdges) r ∧
      (∀ ev ∈ r, isRead ev = true) ∧ delivered r = (k * sz) % U64 := by
  by_cases hk : k = 0
  · have h' := h
    unfold loadEdgeData at h'
    dsimp only at h'
    rw [if_pos hk] at h'
    simp only [Prod.mk.injEq, true_and] at h'
    obtain ⟨hg, hf⟩ := h'
    subst hg hf hk
    exact ⟨rfl, rfl, [], by simp [stageTrace], by simp, by simp [delivered]⟩
  · obtain ⟨h1, h2, r, htr, hr, hd⟩ := loadEdgeData_ok h hk
    exact ⟨h1, h2, r, by simpa [stageTrace, hk] using htr, hr, hd⟩

/-- C4, amended: a load that returns has made exactly these calls on the stream, in this
order.  For a non-empty node range, a seek to byte `4*8 + nodeStart*8` followed by reads
delivering `numLocalNodes*8` bytes.  For a non-empty edge range, a seek to byte
`(4+numGlobalNodes)*8 + edgeStart*4` followed by reads delivering `numLocalEdges*4`
bytes, then a seek to byte `(4+numGlobalNodes)*8 + numGlobalEdges*4 + pad + edgeStart*s`
followed by reads delivering `numLocalEdges*s` bytes, with `pad` 4 for an odd
`numGlobalEdges` and 0 otherwise.  Each of these numbers is taken modulo `2 ^ 64`, and
an empty range makes no call at all. -/
theorem load_seeks_and_counts (sz : Nat) (env : Env) (fuel : Nat) (g : BufferedGraph)
    (filename : String) (nodeStart nodeEnd edgeStart edgeEnd numGlobalNodes numGlobalEdges : Nat)
    (g' : BufferedGraph) (tr : List StreamEvent)
    (h : loadPartialGraph (some sz) env fuel g filename nodeStart nodeEnd edgeStart edgeEnd
      numGlobalNodes numGlobalEdges = (.ok (), g', tr)) :
    g'.numLocalNodes = nodeEnd - nodeStart ∧ g'.numLocalEdges = edgeEnd - edgeStart ∧
    ∃ r1 r2 r3,
      tr = stageTrace (decide (nodeEnd - nodeStart = 0)) ((4 * 8 + nodeStart * 8) % U64) r1
          ++ stageTrace (decide (edgeEnd - edgeStart = 0))
              (((4 + numGlobalNodes) * 8 + edgeStart * 4) % U64) r2
          ++ stageTrace (decide (edgeEnd - edgeStart = 0))
              (((4 + numGlobalNodes) * 8 + numGlobalEdges * 4
                + (if numGlobalEdges % 2 = 1 then 4 else 0) + edgeStart * sz) % U64) r3 ∧
      (∀ ev ∈ r1 ++ r2 ++ r3, isRead ev = true) ∧
      delivered r1 = (g'.numLocalNodes * 8) % U64 ∧
      delivered r2 = (g'.numLocalEdges * 4) % U64 ∧
      delivered r3 = (g'.numLocalEdges * sz) % U64 := by
  obtain ⟨_, _, _, g1, f1, g2, f2, g3, f3, h1, h2, h3, hg, htr⟩ := loadPartialGraph_ok_inv h rfl
  obtain ⟨hn1, _, r1, ht1, hr1, hd1⟩ := loadOutIndex_stage h1
  obtain ⟨hn2, he2, r2, ht2, hr2, hd2⟩ := loadEdgeDest_stage h2
  have he2' : g2.numLocalEdges = edgeEnd - edgeStart := he2
  obtain ⟨hn3, he3, r3, ht3, hr3, hd3⟩ := loadEdgeData_stage h3
  have hnodes : g'.numLocalNodes = nodeEnd - nodeStart := by
    rw [hg]
    show g3.numLocalNodes = _
    rw [hn3, hn2]
    exact hn1
  have hedges : g'.numLocalEdges = edgeEnd - edgeStart := by
    rw [hg]
    show g3.numLocalEdges = _
    rw [he3, he2']
  refine ⟨hnodes, hedges, r1, r2, r3, ?_, ?_, ?_, ?_, ?_⟩
  · rw [htr, ht3, ht2, ht1, openFile_trace, outIndexReadPosition_eq, edgeDestReadPosition_eq,
      edgeDataReadPosition_eq, he2']
    simp
  · intro ev hev
    simp only [List.mem_append] at hev
    rcases hev with (hev | hev) | hev
    · exact hr1 ev hev
    · exact hr2 ev hev
    · exact hr3 ev hev
  · rw [hnodes]; exact hd1
  · rw [hedges]; exact hd2
  · rw [hedges, ← he2']; exact hd3

/-- An instance of the amended C4: the load of the scenario file, whose calls are a seek
to byte 32, a seek to byte 56 and a seek to byte 72, each followed by reads. -/
theorem load_seeks_and_counts_witness :
    scenarioLoad.2.1.numLocalNodes = 3 - 0 ∧ scenarioLoad.2.1.numLocalEdges = 4 - 0 ∧
    ∃ r1 r2 r3,
      scenarioLoad.2.2 = stageTrace (decide (3 - 0 = 0)) ((4 * 8 + 0 * 8) % U64) r1
          ++ stageTrace (decide (4 - 0 = 0)) (((4 + 3) * 8 + 0 * 4) % U64) r2
          ++ stageTrace (decide (4 - 0 = 0)) (((4 + 3) * 8 + 4 * 4
              + (if 4 % 2 = 1 then 4 else 0) + 0 * 4) % U64) r3 ∧
      (∀ ev ∈ r1 ++ r2 ++ r3, isRead ev = true) ∧
      delivered r1 = (scenarioLoad.2.1.numLocalNodes * 8) % U64 ∧
      delivered r2 = (scenarioLoad.2.1.numLocalEdges * 4) % U64 ∧
      delivered r3 = (scenarioLoad.2.1.numLocalEdges * 4) % U64 :=
  load_seeks_and_counts 4 (machineWith scenarioFile) 1 new "graph" 0 3 0 4 3 4
    scenarioLoad.2.1 scenarioLoad.2.2 (by decide)

end BufferedGraph

theorem FileFrame.writeChunks_append (chunks : List Chunk) :
    ∀ ff : FileFrame, ff.valid = true → ff.isClosed = false → ff.persisted = false →
      ff.writeChunks chunks
        = (.ok, { ff with bytes := ff.bytes ++ (chunks.map Chunk.bytes).flatten }) := by
  induction chunks with
  | nil => intro ff _ _ _; simp [FileFrame.writeChunks]
  | cons c cs ih =>
    intro ff hv hc hp
    have hstep : ff.writeChunk c = (.ok, { ff with bytes := ff.bytes ++ c.bytes }) := by
      cases c <;>
        simp [FileFrame.writeChunk, FileFrame.Write, FileFrame.WriteBuffer, Chunk.bytes, hv, hc, hp]
    simp only [FileFrame.writeChunks, hstep]
    rw [ih { ff with bytes := ff.bytes ++ c.bytes } hv hc hp]
    simp

theorem FileFrame.written_eq (reserve : Option Nat) (chunks : List Chunk) :
    FileFrame.written reserve chunks
      = (.ok, { valid := true, bytes := (chunks.map Chunk.bytes).flatten, destination := none,
                persisted := false, isClosed := false }) := by
  unfold FileFrame.written
  rw [FileFrame.writeChunks_append chunks _ rfl rfl rfl]
  simp [FileFrame.Init, FileFrame.new]

theorem FileFrame.persistedAt_eq (storage : Storage) (reserve : Option Nat)
    (chunks : List Chunk) (destination : String) :
    FileFrame.persistedAt storage reserve chunks destination
      = (.ok, storage.store destination (chunks.map Chunk.bytes).flatten,
          { valid := true, bytes := (chunks.map Chunk.bytes).flatten,
            destination := some destination, persisted := true, isClosed := false }) := by
  unfold FileFrame.persistedAt
  rw [FileFrame.written_eq]
  simp [FileFrame.Bind, FileFrame.Persist]

/-- C5: whatever chunks are submitted to an initialised frame, as raw bytes or as
buffer objects, every write succeeds, `Bind` then `Persist` succeeds, the stored object
has as size the total number of bytes written, and a fresh view bound to the same
destination returns from `Read` of that many bytes the concatenation of the chunks in
submission order. -/
theorem write_persist_read_round_trip (storage : Storage) (reserve : Option Nat)
    (chunks : List Chunk) (destination : String) :
    (FileFrame.written reserve chunks).1 = .ok ∧
    (FileFrame.persistedAt storage reserve chunks destination).1 = .ok ∧
    FileStat (FileFrame.persistedAt storage reserve chunks destination).2.1 destination
      = some ((chunks.map (fun c => c.bytes.length)).sum) ∧
    (FileView.Bind (FileFrame.persistedAt storage reserve chunks destination).2.1
      FileView.new destination).1 = .ok ∧
    ((FileView.Bind (FileFrame.persistedAt storage reserve chunks destination).2.1
      FileView.new destination).2.Read ((chunks.map (fun c => c.bytes.length)).sum)).1 = .ok ∧
    ((FileView.Bind (FileFrame.persistedAt storage reserve chunks destination).2.1
      FileView.new destination).2.Read ((chunks.map (fun c => c.bytes.length)).sum)).2.1
      = (chunks.map Chunk.bytes).flatten := by
  have hlen : ((chunks.map Chunk.bytes).flatten).length
      = (chunks.map (fun c => c.bytes.length)).sum := by
    simp [List.length_flatten, List.map_map, Function.comp_def]
  rw [FileFrame.persistedAt_eq, FileFrame.written_eq]
  simp only [FileStat, Storage.store, FileView.Bind, if_true, Option.map_some', FileView.Read,
    FileView.new, Bool.false_eq_true, if_false, List.drop_zero, true_and, hlen]
  rw [← hlen]
  simp

/-- C6: `Persist` on a frame without bound destination fails, whatever the frame holds;
on an initialised frame that is not closed, `Persist` after `Bind` succeeds and stores
the bytes written before. -/
theorem persist_fails_unbound_succeeds_bound (storage : Storage) (ff : FileFrame)
    (destination : String) :
    (ff.destination = none → (FileFrame.Persist storage ff).1 = .failure) ∧
    (ff.valid = true → ff.isClosed = false →
      (FileFrame.Persist storage (ff.Bind destination).2).1 = .ok ∧
      (FileFrame.Persist storage (ff.Bind destination).2).2.1 destination = some ff.bytes) := by
  constructor
  · intro hd
    unfold FileFrame.Persist
    split_ifs
    · rfl
    · rw [hd]
  · intro hv hc
    simp [FileFrame.Persist, FileFrame.Bind, hv, hc, Storage.store]

/-- An instance of C6: the frame of the test `silly`, before and after `Bind`. -/
theorem persist_fails_unbound_succeeds_bound_witness :
    sillyFrame.destination = none ∧ sillyFrame.valid = true ∧ sillyFrame.isClosed = false ∧
    (FileFrame.Persist (fun _ => none) sillyFrame).1 = .failure ∧
    (FileFrame.Persist (fun _ => none) (sillyFrame.Bind "silly").2).1 = .ok ∧
    (FileFrame.Persist (fun _ => none) (sillyFrame.Bind "silly").2).2.1 "silly"
      = some sillyFrame.bytes :=
  ⟨by decide, by decide, by decide,
   (persist_fails_unbound_succeeds_bound (fun _ => none) sillyFrame "silly").1 (by decide),
   (persist_fails_unbound_succeeds_bound (fun _ => none) sillyFrame "silly").2 (by decide)
     (by decide)⟩

/-- C7: on a view bound to an object of `N` bytes, after `Seek(p)` with `p ≤ N`, `Tell`
returns `p`, and a following `Read(n)` succeeds, returns the bytes of the object from
`p` to `min (p + n) N`, leaves the cursor at `min (p + n) N`, and returns fewer than
`n` bytes only when the cursor has reached the end of the object. -/
theorem seek_tell_read (fv : FileView) (bytes : List Nat) (p n : Nat)
    (hb : fv.object = some bytes) (hc : fv.isClosed = false) (hp : p ≤ bytes.length) :
    (fv.Seek p).2.Tell = (.ok, p) ∧
    ((fv.Seek p).2.Read n).1 = .ok ∧
    ((fv.Seek p).2.Read n).2.1 = byteRange bytes p (min (p + n) bytes.length) ∧
    ((fv.Seek p).2.Read n).2.2.cursor = min (p + n) bytes.length ∧
    (((fv.Seek p).2.Read n).2.1.length < n →
      ((fv.Seek p).2.Read n).2.2.cursor = bytes.length) := by
  have hread : (fv.Seek p).2.Read n
      = (.ok, (bytes.drop p).take n,
          { fv with cursor := p + ((bytes.drop p).take n).length }) := by
    simp [FileView.Seek, FileView.Read, hb, hc]
  have hlen : ((bytes.drop p).take n).length = min n (bytes.length - p) := by
    simp
  rw [hread]
  refine ⟨rfl, rfl, ?_, ?_, ?_⟩
  · unfold byteRange
    show List.take n (List.drop p bytes) = _
    rw [List.take_eq_take, List.length_drop]
    omega
  · show p + ((bytes.drop p).take n).length = _
    rw [hlen]
    omega
  · show ((bytes.drop p).take n).length < n → p + ((bytes.drop p).take n).length = _
    rw [hlen]
    omega

/-- An instance of C7: a seek to 3 in an object of five bytes, then a read of 5 bytes. -/
theorem seek_tell_read_witness :
    (FileView.Bind fiveByteStore FileView.new "silly").2.object = some [10, 11, 12, 13, 14] ∧
    ((FileView.Bind fiveByteStore FileView.new "silly").2.Seek 3).2.Tell = (.ok, 3) ∧
    (((FileView.Bind fiveByteStore FileView.new "silly").2.Seek 3).2.Read 5).2.1
      = byteRange [10, 11, 12, 13, 14] 3 (min (3 + 5) 5) ∧
    byteRange [10, 11, 12, 13, 14] 3 (min (3 + 5) 5) = [13, 14] :=
  ⟨by decide,
   (seek_tell_read (FileView.Bind fiveByteStore FileView.new "silly").2 [10, 11, 12, 13, 14] 3 5
     (by decide) (by decide) (by decide)).1,
   (seek_tell_read (FileView.Bind fiveByteStore FileView.new "silly").2 [10, 11, 12, 13, 14] 3 5
     (by decide) (by decide) (by decide)).2.2.1,
   by decide⟩

theorem the_big_one_passes (storage : Storage) (bits : List Nat) (num_bytes : Nat) (dir : String)
    (h1 : READ_PARTIAL ≤ num_bytes) (h2 : num_bytes ≤ bits.length) :
    the_big_one storage bits num_bytes dir
      = some (storage.store (dir ++ "the-big-one") (bits.take num_bytes)) := by
  have hlen : (bits.take num_bytes).length = num_bytes := by
    rw [List.length_take]; omega
  have htt : List.take READ_PARTIAL (List.take num_bytes bits) = List.take READ_PARTIAL bits := by
    rw [List.take_take, Nat.min_eq_left h1]
  have hl : (List.take READ_PARTIAL bits).length = READ_PARTIAL := by
    rw [List.length_take]; omega
  have hcmp : List.take READ_PARTIAL
      (List.take READ_PARTIAL (List.take num_bytes bits) ++
        List.replicate (8 * num_bytes - READ_PARTIAL ⊓ (num_bytes ⊓ bits.length)) 0)
      = List.take READ_PARTIAL bits := by
    rw [htt, List.take_append_of_le_length (by omega), List.take_take, Nat.min_self]
  have h3 : READ_PARTIAL ≤ bits.length := by omega
  simp [the_big_one, FileFrame.Init, FileFrame.new, FileFrame.Write, FileFrame.Bind,
    FileFrame.Persist, FileStat, Storage.store, FileView.Bind, FileView.new, FileView.ReadInto,
    FileView.Read, h2, h1, h3, hcmp]
  exact htt

theorem append_left_cancel (s t u : String) (h : s ++ t = s ++ u) : t = u := by
  have hd := congrArg String.data h
  rw [String.data_append, String.data_append] at hd
  exact String.ext (List.append_cancel_left hd)

theorem append_ne_self (s t : String) (ht : t.length ≠ 0) : s ++ t ≠ s := by
  intro h
  have hl := congrArg String.length h
  rw [String.length_append] at hl
  omega

theorem silly_passes (storage : Storage) (bits : List Nat) (num_bytes : Nat) (dir : String)
    (h1 : READ_PARTIAL ≤ num_bytes) (h2 : num_bytes ≤ bits.length)
    (hfresh : storage (dir ++ "silly" ++ "not-a-file") = none) :
    silly storage bits num_bytes dir
      = some (storage.store (dir ++ "silly") (bits.take num_bytes)) := by
  have hlen : (bits.take num_bytes).length = num_bytes := by
    rw [List.length_take]; omega
  have hname : dir ++ "silly" ++ "not-a-file" ≠ dir ++ "silly" :=
    append_ne_self _ _ (by decide)
  have hcmp : List.take READ_PARTIAL
      (List.take num_bytes (List.drop (num_bytes - READ_PARTIAL) (List.take num_bytes bits)))
      = List.take READ_PARTIAL (List.drop (num_bytes - READ_PARTIAL) bits) := by
    rw [List.drop_take, List.take_take, List.take_take]
    congr 1
    omega
  have hsz : num_bytes ⊓ bits.length - (num_bytes - READ_PARTIAL) = READ_PARTIAL := by
    rw [Nat.min_eq_left h2]
    omega
  simp [silly, FileFrame.Init, FileFrame.new, FileFrame.WriteBuffer, FileFrame.Bind,
    FileFrame.Persist, FileStat, Storage.store, FileView.Bind, FileView.new, FileView.Seek,
    FileView.Tell, FileView.Close, FileView.closed, FileFrame.Close, FileFrame.closed,
    FileView.Read, h2, hname, hfresh, hcmp, hsz]
  omega

theorem exponentialWrites_eq (bits : List Nat) (count : Nat) :
    ∀ (i : Nat) (ff : FileFrame) (ptr running : Nat),
      ff.valid = true → ff.isClosed = false → ff.persisted = false →
      exponentialWrites bits count i ff ptr running
        = some ({ ff with bytes := ff.bytes ++ (bits.drop ptr).take (exponentialTotal count i) },
            ptr + exponentialTotal count i, running + exponentialTotal count i) := by
  induction count with
  | zero => intro i ff ptr running _ _ _; simp [exponentialWrites, exponentialTotal]
  | succ count ih =>
    intro i ff ptr running hv hc hp
    have hw : ff.Write ((bits.drop ptr).take (2 ^ i))
        = (.ok, { ff with bytes := ff.bytes ++ (bits.drop ptr).take (2 ^ i) }) := by
      simp [FileFrame.Write, hv, hc, hp]
    simp only [exponentialWrites, hw, exponentialTotal]
    rw [ih (i + 1) { ff with bytes := ff.bytes ++ (bits.drop ptr).take (2 ^ i) } _ _ hv hc hp]
    have hbytes : List.take (2 ^ i + exponentialTotal count (i + 1)) (List.drop ptr bits)
        = List.take (2 ^ i) (List.drop ptr bits)
          ++ List.take (exponentialTotal count (i + 1)) (List.drop (ptr + 2 ^ i) bits) := by
      rw [List.take_add, List.drop_drop]
    simp only [hbytes, List.append_assoc, Nat.add_assoc]

theorem exponential_passes (storage : Storage) (bits : List Nat) (dir : String)
    (h : 2 ^ EXP_WRITE_COUNT - 1 ≤ bits.length) :
    exponential storage bits dir
      = some (storage.store (dir ++ "exponential") (bits.take (2 ^ EXP_WRITE_COUNT - 1))) := by
  have htotal : exponentialTotal EXP_WRITE_COUNT 0 = 2 ^ EXP_WRITE_COUNT - 1 := by decide
  have hw := exponentialWrites_eq bits EXP_WRITE_COUNT 0 (FileFrame.new.Init none).2 0 0 rfl rfl rfl
  rw [htotal] at hw
  have hlen : (bits.take (2 ^ EXP_WRITE_COUNT - 1)).length = 2 ^ EXP_WRITE_COUNT - 1 := by
    rw [List.length_take]; omega
  unfold exponential
  simp only [FileFrame.Init] at hw ⊢
  rw [hw]
  simp [FileFrame.new, FileFrame.Bind, FileFrame.Persist, FileStat, Storage.store,
    FileView.Bind, FileView.new, FileView.Read, hlen, h]
  rw [List.take_take, List.take_take, Nat.min_self, Nat.min_self]

/-- The tests of `fileobjects.cpp` pass on the model, for every content of the byte
array and a temporary directory in which no object of the name probed by `silly`
exists. -/
theorem fileobjectsMain_passes (storage : Storage) (bits : List Nat) (temp_dir : String)
    (hbits : bits.length = 2 ^ EXP_WRITE_COUNT)
    (hfresh : storage (temp_dir ++ "silly" ++ "not-a-file") = none) :
    (fileobjectsMain storage bits temp_dir).isSome = true := by
  have hpart : READ_PARTIAL ≤ 2 ^ EXP_WRITE_COUNT := by decide
  have hne1 : temp_dir ++ "silly" ++ "not-a-file" ≠ temp_dir ++ "exponential" := by
    rw [String.append_assoc]
    intro h
    exact absurd (append_left_cancel temp_dir _ _ h) (by decide)
  have hne2 : temp_dir ++ "silly" ++ "not-a-file" ≠ temp_dir ++ "the-big-one" := by
    rw [String.append_assoc]
    intro h
    exact absurd (append_left_cancel temp_dir _ _ h) (by decide)
  unfold fileobjectsMain
  simp only []
  rw [exponential_passes storage bits temp_dir (by omega)]
  simp only []
  rw [the_big_one_passes _ bits _ temp_dir hpart (by omega)]
  simp only []
  rw [silly_passes _ bits _ temp_dir hpart (by omega)
    (by simp [Storage.store, hne1, hne2, hfresh])]
  rfl

namespace BufferedGraph

theorem loadOutIndex_not_loadedTwice (env : Env) (fuel : Nat) (g : BufferedGraph)
    (f : IfStream) (nodeStart k : Nat) :
    (loadOutIndex env fuel g f nodeStart k).1 ≠ .die .loadedTwice := by
  unfold loadOutIndex
  dsimp only
  split_ifs <;> simp

theorem loadEdgeDest_not_loadedTwice (env : Env) (fuel : Nat) (g : BufferedGraph)
    (f : IfStream) (edgeStart k numGlobalNodes : Nat) :
    (loadEdgeDest env fuel g f edgeStart k numGlobalNodes).1 ≠ .die .loadedTwice := by
  unfold loadEdgeDest
  dsimp only
  split_ifs <;> simp

theorem loadEdgeData_not_loadedTwice (edgeDataSize : Option Nat) (env : Env) (fuel : Nat)
    (g : BufferedGraph) (f : IfStream) (edgeStart k numGlobalNodes numGlobalEdges : Nat) :
    (loadEdgeData edgeDataSize env fuel g f edgeStart k numGlobalNodes numGlobalEdges).1
      ≠ .die .loadedTwice := by
  unfold loadEdgeData
  cases edgeDataSize with
  | none => simp
  | some sz =>
    dsimp only
    split_ifs <;> simp

/-- An instance that is not marked loaded accepts a load: whatever happens, it is not
the refusal of a second load. -/
theorem loadPartialGraph_accepted (edgeDataSize : Option Nat) (env : Env) (fuel : Nat)
    (g : BufferedGraph) (filename : String)
    (nodeStart nodeEnd edgeStart edgeEnd numGlobalNodes numGlobalEdges : Nat)
    (hl : g.graphLoaded = false) :
    (loadPartialGraph edgeDataSize env fuel g filename nodeStart nodeEnd edgeStart edgeEnd
      numGlobalNodes numGlobalEdges).1 ≠ .die .loadedTwice := by
  unfold loadPartialGraph
  rw [if_neg (by simp [hl])]
  dsimp only
  by_cases hn : nodeStart ≤ nodeEnd
  swap
  · rw [if_pos hn]; simp
  rw [if_neg (not_not.mpr hn)]
  have h1 := loadOutIndex_not_loadedTwice env fuel { g with numLocalNodes := nodeEnd - nodeStart }
    (IfStream.openFile env filename) nodeStart (nodeEnd - nodeStart)
  generalize loadOutIndex env fuel { g with numLocalNodes := nodeEnd - nodeStart }
    (IfStream.openFile env filename) nodeStart (nodeEnd - nodeStart) = r1 at h1 ⊢
  obtain ⟨o1, g1, f1⟩ := r1
  cases o1 <;> first | (simp; done) | (simpa using h1) | skip
  dsimp only
  by_cases he : edgeStart ≤ edgeEnd
  swap
  · rw [if_pos he]; simp
  rw [if_neg (not_not.mpr he)]
  have h2 := loadEdgeDest_not_loadedTwice env fuel
    { g1 with numLocalEdges := edgeEnd - edgeStart } f1 edgeStart (edgeEnd - edgeStart)
    numGlobalNodes
  generalize loadEdgeDest env fuel { g1 with numLocalEdges := edgeEnd - edgeStart } f1
    edgeStart (edgeEnd - edgeStart) numGlobalNodes = r2 at h2 ⊢
  obtain ⟨o2, g2, f2⟩ := r2
  cases o2 <;> first | (simp; done) | (simpa using h2) | skip
  dsimp only
  have h3 := loadEdgeData_not_loadedTwice edgeDataSize env fuel g2 f2 edgeStart
    g2.numLocalEdges numGlobalNodes numGlobalEdges
  generalize loadEdgeData edgeDataSize env fuel g2 f2 edgeStart g2.numLocalEdges
    numGlobalNodes numGlobalEdges = r3 at h3 ⊢
  obtain ⟨o3, g3, f3⟩ := r3
  cases o3 <;> first | (simp; done) | (simpa using h3)

/-- C11: from every state, `resetAndFree` yields the freshly constructed instance: the
three buffers are null, the local counts and offsets are 0, the loaded flag is false and
the three counters are 0; so a following load is not refused as a second load and has
the result it has on a fresh instance. -/
theorem resetAndFree_eq_new (g : BufferedGraph) :
    resetAndFree g = new ∧
    (resetAndFree g).outIndexBuffer = none ∧ (resetAndFree g).edgeDestBuffer = none ∧
    (resetAndFree g).edgeDataBuffer = none ∧
    (resetAndFree g).numLocalNodes = 0 ∧ (resetAndFree g).numLocalEdges = 0 ∧
    (resetAndFree g).nodeOffset = 0 ∧ (resetAndFree g).edgeOffset = 0 ∧
    (resetAndFree g).graphLoaded = false ∧
    (resetAndFree g).numBytesReadOutIndex = 0 ∧ (resetAndFree g).numBytesReadEdgeDest = 0 ∧
    (resetAndFree g).numBytesReadEdgeData = 0 ∧
    ∀ (edgeDataSize : Option Nat) (env : Env) (fuel : Nat) (filename : String)
      (nodeStart nodeEnd edgeStart edgeEnd numGlobalNodes numGlobalEdges : Nat),
      loadPartialGraph edgeDataSize env fuel (resetAndFree g) filename nodeStart nodeEnd
          edgeStart edgeEnd numGlobalNodes numGlobalEdges
        = loadPartialGraph edgeDataSize env fuel new filename nodeStart nodeEnd
          edgeStart edgeEnd numGlobalNodes numGlobalEdges ∧
      (loadPartialGraph edgeDataSize env fuel (resetAndFree g) filename nodeStart nodeEnd
          edgeStart edgeEnd numGlobalNodes numGlobalEdges).1 ≠ .die .loadedTwice := by
  have h : resetAndFree g = new := rfl
  refine ⟨h, rfl, rfl, rfl, rfl, rfl, rfl, rfl, rfl, rfl, rfl, rfl, ?_⟩
  intro edgeDataSize env fuel filename nodeStart nodeEnd edgeStart edgeEnd numGlobalNodes
    numGlobalEdges
  rw [h]
  exact ⟨rfl, loadPartialGraph_accepted _ _ _ _ _ _ _ _ _ _ _ rfl⟩

/-- C12, as stated, fails: on the loaded scenario file `edgeBegin(0)`, the call for the
first local node, returns and leaves the out-index counter as it was. -/
theorem accessor_counter_counterexample :
    Loaded scenarioLoad.2.1 ∧ (edgeBegin scenarioLoad.2.1 0).1 = .ok 0 ∧
    (edgeBegin scenarioLoad.2.1 0).2.numBytesReadOutIndex
      = scenarioLoad.2.1.numBytesReadOutIndex ∧
    (edgeBegin scenarioLoad.2.1 0).2.numBytesReadOutIndex
      ≠ scenarioLoad.2.1.numBytesReadOutIndex + 8 ∧
    (edgeBegin scenarioLoad.2.1 0).2.numBytesReadOutIndex
      ≠ (scenarioLoad.2.1.numBytesReadOutIndex + 8) % U64 := by
  decide

theorem edgeBegin_counter (g : BufferedGraph) (n : Nat)
    (h : (edgeBegin g n).1.returns = true) :
    (edgeBegin g n).2.numBytesReadOutIndex
      = (if g.numLocalNodes = 0 ∨ n = g.nodeOffset then g.numBytesReadOutIndex
         else (g.numBytesReadOutIndex + 8) % U64) := by
  unfold edgeBegin at h ⊢
  by_cases hl : g.graphLoaded = true
  swap
  · simp [hl, Outcome.returns] at h
  by_cases h0 : g.numLocalNodes = 0
  · simp [hl, h0]
  by_cases hlo : g.nodeOffset ≤ n
  swap
  · simp [hl, h0, hlo, Outcome.returns] at h
  by_cases hhi : n < (g.nodeOffset + g.numLocalNodes) % U64
  swap
  · simp [hl, h0, hlo, hhi, Outcome.returns] at h
  by_cases hfirst : n - g.nodeOffset = 0
  · have hn : n = g.nodeOffset := by omega
    rw [if_pos (Or.inr hn)]
    simp [hl, h0, hlo, hhi, hfirst]
  · have hn : ¬ (g.numLocalNodes = 0 ∨ n = g.nodeOffset) := by omega
    rw [if_neg hn]
    cases hb : bufferEntry g.outIndexBuffer 8 (n - g.nodeOffset - 1) with
    | none => simp [hl, h0, hlo, hhi, hfirst, hb, Outcome.returns] at h
    | some v => simp [hl, h0, hlo, hhi, hfirst, hb]

theorem edgeEnd_counter (g : BufferedGraph) (n : Nat)
    (h : (edgeEnd g n).1.returns = true) :
    (edgeEnd g n).2.numBytesReadOutIndex
      = (if g.numLocalNodes = 0 then g.numBytesReadOutIndex
         else (g.numBytesReadOutIndex + 8) % U64) := by
  unfold edgeEnd at h ⊢
  by_cases hl : g.graphLoaded = true
  swap
  · simp [hl, Outcome.returns] at h
  by_cases h0 : g.numLocalNodes = 0
  · simp [hl, h0]
  by_cases hlo : g.nodeOffset ≤ n
  swap
  · simp [hl, h0, hlo, Outcome.returns] at h
  by_cases hhi : n < (g.nodeOffset + g.numLocalNodes) % U64
  swap
  · simp [hl, h0, hlo, hhi, Outcome.returns] at h
  cases hb : bufferEntry g.outIndexBuffer 8 (n - g.nodeOffset) with
  | none => simp [hl, h0, hlo, hhi, hb, Outcome.returns] at h
  | some v => simp [hl, h0, hlo, hhi, hb]

theorem edgeDestination_counter (g : BufferedGraph) (e : Nat)
    (h : (edgeDestination g e).1.returns = true) :
    (edgeDestination g e).2.numBytesReadEdgeDest
      = (if g.numLocalEdges = 0 then g.numBytesReadEdgeDest
         else (g.numBytesReadEdgeDest + 4) % U64) := by
  unfold edgeDestination at h ⊢
  by_cases hl : g.graphLoaded = true
  swap
  · simp [hl, Outcome.returns] at h
  by_cases h0 : g.numLocalEdges = 0
  · simp [hl, h0]
  by_cases hlo : g.edgeOffset ≤ e
  swap
  · simp [hl, h0, hlo, Outcome.returns] at h
  by_cases hhi : e < (g.edgeOffset + g.numLocalEdges) % U64
  swap
  · simp [hl, h0, hlo, hhi, Outcome.returns] at h
  cases hb : bufferEntry g.edgeDestBuffer 4 (e - g.edgeOffset) with
  | none => simp [hl, h0, hlo, hhi, hb, Outcome.returns] at h
  | some v => simp [hl, h0, hlo, hhi, hb]

theorem edgeData_counter (sz : Nat) (g : BufferedGraph) (e : Nat)
    (h : (edgeData (some sz) g e).1.returns = true) :
    (edgeData (some sz) g e).2.numBytesReadEdgeData
      = (if g.numLocalEdges = 0 then g.numBytesReadEdgeData
         else (g.numBytesReadEdgeData + sz) % U64) := by
  unfold edgeData at h ⊢
  dsimp only at h ⊢
  by_cases hl : g.graphLoaded = true
  swap
  · simp [hl, Outcome.returns] at h
  by_cases hnull : g.edgeDataBuffer.isNone = true
  · simp [hl, hnull, Outcome.returns] at h
  by_cases h0 : g.numLocalEdges = 0
  · simp [hl, hnull, h0]
  by_cases hlo : g.edgeOffset ≤ e
  swap
  · simp [hl, hnull, h0, hlo, Outcome.returns] at h
  by_cases hhi : e < (g.edgeOffset + g.numLocalEdges) % U64
  swap
  · simp [hl, hnull, h0, hlo, hhi, Outcome.returns] at h
  cases hb : bufferEntry g.edgeDataBuffer sz (e - g.edgeOffset) with
  | none => simp [hl, hnull, h0, hlo, hhi, hb, Outcome.returns] at h
  | some v => simp [hl, hnull, h0, hlo, hhi, hb]

/-- C12, amended: an accessor call that returns adds the width of the entry to the
counter of its category, in `uint64_t`, exactly when it reads a buffer, and leaves the
counter as it is otherwise.  `edgeEnd(n)` adds 8 to the out-index counter unless there
is no local node; `edgeBegin(n)` adds 8 unless there is no local node or `n` is the
first local node; `edgeDestination(e)` adds 4 to the destination counter unless there
is no local edge; `edgeData(e)` adds the record size to the data counter unless the
edge data type is `void` or there is no local edge. -/
theorem accessor_counters (edgeDataSize : Option Nat) (g : BufferedGraph) (n e : Nat) :
    ((edgeBegin g n).1.returns = true →
      (edgeBegin g n).2.numBytesReadOutIndex
        = (if g.numLocalNodes = 0 ∨ n = g.nodeOffset then g.numBytesReadOutIndex
           else (g.numBytesReadOutIndex + 8) % U64)) ∧
    ((edgeEnd g n).1.returns = true →
      (edgeEnd g n).2.numBytesReadOutIndex
        = (if g.numLocalNodes = 0 then g.numBytesReadOutIndex
           else (g.numBytesReadOutIndex + 8) % U64)) ∧
    ((edgeDestination g e).1.returns = true →
      (edgeDestination g e).2.numBytesReadEdgeDest
        = (if g.numLocalEdges = 0 then g.numBytesReadEdgeDest
           else (g.numBytesReadEdgeDest + 4) % U64)) ∧
    ((edgeData edgeDataSize g e).1.returns = true →
      (edgeData edgeDataSize g e).2.numBytesReadEdgeData
        = (match edgeDataSize with
            | none => g.numBytesReadEdgeData
            | some sz =>
              if g.numLocalEdges = 0 then g.numBytesReadEdgeData
              else (g.numBytesReadEdgeData + sz) % U64)) := by
  refine ⟨edgeBegin_counter g n, edgeEnd_counter g n, edgeDestination_counter g e, ?_⟩
  cases edgeDataSize with
  | none => intro _; rfl
  | some sz => exact edgeData_counter sz g e

/-- An instance of the amended C12: on the loaded scenario file `edgeBegin(1)` and
`edgeEnd(1)` add 8, `edgeDestination(2)` adds 4 and `edgeData(2)` adds 4. -/
theorem accessor_counters_witness :
    (edgeBegin scenarioLoad.2.1 1).2.numBytesReadOutIndex
      = (if scenarioLoad.2.1.numLocalNodes = 0 ∨ 1 = scenarioLoad.2.1.nodeOffset
         then scenarioLoad.2.1.numBytesReadOutIndex
         else (scenarioLoad.2.1.numBytesReadOutIndex + 8) % U64) ∧
    (edgeEnd scenarioLoad.2.1 1).2.numBytesReadOutIndex
      = (if scenarioLoad.2.1.numLocalNodes = 0 then scenarioLoad.2.1.numBytesReadOutIndex
         else (scenarioLoad.2.1.numBytesReadOutIndex + 8) % U64) ∧
    (edgeDestination scenarioLoad.2.1 2).2.numBytesReadEdgeDest
      = (if scenarioLoad.2.1.numLocalEdges = 0 then scenarioLoad.2.1.numBytesReadEdgeDest
         else (scenarioLoad.2.1.numBytesReadEdgeDest + 4) % U64) ∧
    (edgeData (some 4) scenarioLoad.2.1 2).2.numBytesReadEdgeData
      = (if scenarioLoad.2.1.numLocalEdges = 0 then scenarioLoad.2.1.numBytesReadEdgeData
         else (scenarioLoad.2.1.numBytesReadEdgeData + 4) % U64) ∧
    (edgeBegin scenarioLoad.2.1 1).2.numBytesReadOutIndex = 8 ∧
    (edgeEnd scenarioLoad.2.1 1).2.numBytesReadOutIndex = 8 ∧
    (edgeDestination scenarioLoad.2.1 2).2.numBytesReadEdgeDest = 4 ∧
    (edgeData (some 4) scenarioLoad.2.1 2).2.numBytesReadEdgeData = 4 :=
  ⟨(accessor_counters (some 4) scenarioLoad.2.1 1 2).1 (by decide),
   (accessor_counters (some 4) scenarioLoad.2.1 1 2).2.1 (by decide),
   (accessor_counters (some 4) scenarioLoad.2.1 1 2).2.2.1 (by decide),
   (accessor_counters (some 4) scenarioLoad.2.1 1 2).2.2.2 (by decide),
   by decide, by decide, by decide, by decide⟩

end BufferedGraph

/-- C14: after `RegisterTopologyFile(path)` the topology path of the part header is
`path` and the rest of the header is as before, the topology view is unbound whatever
it was bound to, the node table and the edge table are unchanged, and the result of the
call is the result of `Unbind` on the view. -/
theorem registerTopologyFile_frame {Table : Type} (core : RDGCore Table) (path : String) :
    (core.RegisterTopologyFile path).2.part_header_.topology_path = path ∧
    (core.RegisterTopologyFile path).2.part_header_.metadata_ = core.part_header_.metadata_ ∧
    (core.RegisterTopologyFile path).2.topology_file_storage_.object = none ∧
    (core.RegisterTopologyFile path).2.topology_file_storage_
      = core.topology_file_storage_.Unbind.2 ∧
    (core.RegisterTopologyFile path).2.node_table_ = core.node_table_ ∧
    (core.RegisterTopologyFile path).2.edge_table_ = core.edge_table_ ∧
    (core.RegisterTopologyFile path).1 = core.topology_file_storage_.Unbind.1 := by
  refine ⟨rfl, rfl, rfl, rfl, rfl, rfl, rfl⟩

theorem validDestinations_skipRemoved (es : List GraphEdge) :
    validDestinations (skipRemoved es) = validDestinations es := by
  induction es with
  | nil => rfl
  | cons e es ih =>
    unfold skipRemoved
    by_cases h : e.data &&& removed = 0
    · simp [h]
    · simp only [ne_eq, h, not_false_eq_true, if_true, ih]
      simp [validDestinations, h]

theorem skipRemoved_length_le (es : List GraphEdge) : (skipRemoved es).length ≤ es.length := by
  induction es with
  | nil => simp [skipRemoved]
  | cons e es ih =>
    unfold skipRemoved
    split_ifs
    · exact Nat.le_succ_of_le ih
    · exact Nat.le_refl _

theorem skipRemoved_increasing (es : List GraphEdge) (h : StrictlyIncreasing es) :
    StrictlyIncreasing (skipRemoved es) := by
  induction es with
  | nil => simpa [skipRemoved] using h
  | cons e es ih =>
    unfold skipRemoved
    split_ifs
    · exact ih (List.Pairwise.of_cons h)
    · exact h

theorem skipRemoved_head_valid (es : List GraphEdge) (s : GraphEdge) (t : List GraphEdge)
    (h : skipRemoved es = s :: t) : s.data &&& removed = 0 := by
  induction es with
  | nil => simp [skipRemoved] at h
  | cons e es ih =>
    unfold skipRemoved at h
    split_ifs at h with hr
    · exact ih h
    · simp only [List.cons.injEq] at h
      rw [← h.1]
      simpa using hr

theorem lt_of_mem_validDestinations (d : GraphEdge) (es : List GraphEdge)
    (h : StrictlyIncreasing (d :: es)) (x : Nat) (hx : x ∈ validDestinations es) : d.dst < x := by
  simp only [validDestinations, List.mem_map, List.mem_filter] at hx
  obtain ⟨e, ⟨he, _⟩, rfl⟩ := hx
  exact List.rel_of_pairwise_cons h he

theorem validDestinations_cons_valid (s : GraphEdge) (es : List GraphEdge)
    (h : s.data &&& removed = 0) : validDestinations (s :: es) = s.dst :: validDestinations es := by
  simp [validDestinations, h]

theorem commonValid_nil_left (b : List GraphEdge) : commonValid [] b = 0 := by
  simp [commonValid, validDestinations]

theorem commonValid_nil_right (a : List GraphEdge) : commonValid a [] = 0 := by
  simp [commonValid, validDestinations]

theorem commonValid_skipRemoved (a b : List GraphEdge) :
    commonValid (skipRemoved a) (skipRemoved b) = commonValid a b := by
  unfold commonValid
  rw [validDestinations_skipRemoved, validDestinations_skipRemoved]

/-- The head of the first range is smaller than the head of the second: it is not a
common destination. -/
theorem commonValid_lt (s d : GraphEdge) (a b : List GraphEdge)
    (hs : s.data &&& removed = 0) (hd : d.data &&& removed = 0)
    (hb : StrictlyIncreasing (d :: b)) (hlt : s.dst < d.dst) :
    commonValid (s :: a) (d :: b) = commonValid a (d :: b) := by
  unfold commonValid
  rw [validDestinations_cons_valid s a hs]
  have hnot : s.dst ∉ validDestinations (d :: b) := by
    rw [validDestinations_cons_valid d b hd]
    intro hmem
    rcases List.mem_cons.mp hmem with h | h
    · omega
    · have := lt_of_mem_validDestinations d b hb _ h
      omega
  rw [List.filter_cons_of_neg (by simpa using hnot)]

/-- The head of the second range is smaller than the head of the first: it is not a
common destination. -/
theorem commonValid_gt (s d : GraphEdge) (a b : List GraphEdge)
    (hs : s.data &&& removed = 0) (hd : d.data &&& removed = 0)
    (ha : StrictlyIncreasing (s :: a)) (hlt : d.dst < s.dst) :
    commonValid (s :: a) (d :: b) = commonValid (s :: a) b := by
  unfold commonValid
  apply congrArg
  apply List.filter_congr
  intro x hx
  rw [validDestinations_cons_valid d b hd]
  have hne : x ≠ d.dst := by
    rw [validDestinations_cons_valid s a hs] at hx
    rcases List.mem_cons.mp hx with h | h
    · omega
    · have := lt_of_mem_validDestinations s a ha _ h
      omega
  simp [hne]

/-- The heads have the same destination: it is a common destination, and no other. -/
theorem commonValid_eq (s d : GraphEdge) (a b : List GraphEdge)
    (hs : s.data &&& removed = 0) (hd : d.data &&& removed = 0)
    (ha : StrictlyIncreasing (s :: a)) (heq : s.dst = d.dst) :
    commonValid (s :: a) (d :: b) = commonValid a b + 1 := by
  unfold commonValid
  rw [validDestinations_cons_valid s a hs, validDestinations_cons_valid d b hd]
  rw [List.filter_cons_of_pos (by simp [heq]), List.length_cons]
  congr 2
  apply List.filter_congr
  intro x hx
  have hne : x ≠ d.dst := by
    have := lt_of_mem_validDestinations s a ha _ hx
    omega
  simp [hne]

/-- The loop returns, within one iteration per edge of the two ranges and one more,
whether the matches counted so far and the common valid destinations still ahead reach
`j`. -/
theorem supportLoop_eq (fuel : Nat) :
    ∀ (a b : List GraphEdge) (n j : Nat), StrictlyIncreasing a → StrictlyIncreasing b →
      a.length + b.length < fuel →
      supportLoop fuel a b n j = some (decide (j ≤ n + commonValid a b)) := by
  induction fuel with
  | zero => intro a b n j _ _ h; omega
  | succ fuel ih =>
    intro a b n j ha hb hfuel
    have hla := skipRemoved_length_le a
    have hlb := skipRemoved_length_le b
    have ha' := skipRemoved_increasing a ha
    have hb' := skipRemoved_increasing b hb
    rw [← commonValid_skipRemoved a b]
    unfold supportLoop
    cases hsa : skipRemoved a with
    | nil => simp [commonValid_nil_left]
    | cons s sT =>
      cases hsb : skipRemoved b with
      | nil => simp [commonValid_nil_right]
      | cons d dT =>
        rw [hsa] at hla ha'
        rw [hsb] at hlb hb'
        have hs := skipRemoved_head_valid a s sT hsa
        have hd := skipRemoved_head_valid b d dT hsb
        simp only [List.length_cons] at hla hlb
        dsimp only
        by_cases h1 : s.dst < d.dst
        · rw [if_pos h1, commonValid_lt s d sT dT hs hd hb' h1]
          exact ih sT (d :: dT) n j (List.Pairwise.of_cons ha') hb'
            (by simp only [List.length_cons]; omega)
        · rw [if_neg h1]
          by_cases h2 : d.dst < s.dst
          · rw [if_pos h2, commonValid_gt s d sT dT hs hd ha' h2]
            exact ih (s :: sT) dT n j ha' (List.Pairwise.of_cons hb')
              (by simp only [List.length_cons]; omega)
          · rw [if_neg h2, commonValid_eq s d sT dT hs hd ha' (by omega)]
            by_cases h3 : n + 1 ≥ j
            · rw [if_pos h3]
              simp only [Option.some.injEq]
              symm
              rw [decide_eq_true_eq]
              omega
            · rw [if_neg h3, ih sT dT (n + 1) j (List.Pairwise.of_cons ha')
                (List.Pairwise.of_cons hb') (by omega)]
              congr 2
              apply propext
              constructor <;> intro h <;> omega

theorem validDestinations_nodup (es : List GraphEdge) (h : StrictlyIncreasing es) :
    (validDestinations es).Nodup := by
  unfold validDestinations
  have hf : (es.filter (fun e => e.data &&& removed = 0)).Pairwise (fun a b => a.dst < b.dst) :=
    List.Pairwise.filter _ h
  have hm : ((es.filter (fun e => e.data &&& removed = 0)).map (fun e => e.dst)).Pairwise
      (fun x y => x < y) := by
    rw [List.pairwise_map]
    exact hf
  exact hm.imp (fun hxy => Nat.ne_of_lt hxy)

theorem support_eq_commonValid (g : Graph) (src dst : Nat)
    (hs : StrictlyIncreasing (g.edges src)) :
    support g src dst = commonValid (g.edges src) (g.edges dst) := by
  unfold support commonValid
  rw [← Finset.filter_mem_eq_inter]
  have : Finset.filter (fun i => i ∈ (validDestinations (g.edges dst)).toFinset)
      (validDestinations (g.edges src)).toFinset
      = ((validDestinations (g.edges src)).filter
          (fun x => x ∈ validDestinations (g.edges dst))).toFinset := by
    ext x
    simp
  rw [this, List.toFinset_card_of_nodup]
  exact (validDestinations_nodup _ hs).filter _

/-- C17: when the adjacency lists of `src` and `dst` are strictly increasing by
destination, `isSupportNoLessThanJ` returns within one iteration per edge of the two
lists and one more, and it returns true if and only if the number of nodes that are the
destination of a non-removed edge of `src` and also of a non-removed edge of `dst` is at
least `j`. -/
theorem isSupportNoLessThanJ_correct (fuel : Nat) (g : Graph) (src dst j : Nat)
    (hs : StrictlyIncreasing (g.edges src)) (hd : StrictlyIncreasing (g.edges dst))
    (hfuel : (g.edges src).length + (g.edges dst).length < fuel) :
    isSupportNoLessThanJ fuel g src dst j = some (decide (j ≤ support g src dst)) := by
  unfold isSupportNoLessThanJ
  rw [supportLoop_eq fuel _ _ 0 j hs hd hfuel, support_eq_commonValid g src dst hs]
  simp

/-- An instance of C17: on the sample graph the support of nodes 0 and 1 is 2, so the
function returns true for `j = 2`. -/
theorem isSupportNoLessThanJ_correct_witness :
    StrictlyIncreasing (sampleGraph.edges 0) ∧ StrictlyIncreasing (sampleGraph.edges 1) ∧
    support sampleGraph 0 1 = 2 ∧
    isSupportNoLessThanJ 9 sampleGraph 0 1 2 = some (decide (2 ≤ support sampleGraph 0 1)) ∧
    isSupportNoLessThanJ 9 sampleGraph 0 1 2 = some true ∧
    isSupportNoLessThanJ 9 sampleGraph 0 1 3 = some false :=
  ⟨by decide, by decide, by decide,
   isSupportNoLessThanJ_correct 9 sampleGraph 0 1 2 (by decide) (by decide) (by decide),
   by decide, by decide⟩

namespace BufferedGraph

/-- The members of a fresh instance after a load that returns: the local counts and the
loaded flag are set; each offset is stored only by the stage of a non-empty range and is
left at 0 otherwise. -/
theorem loadPartialGraph_fields {edgeDataSize : Option Nat} {env : Env} {fuel : Nat}
    {filename : String}
    {nodeStart nodeEnd edgeStart edgeEnd numGlobalNodes numGlobalEdges : Nat}
    {g' : BufferedGraph} {tr : List StreamEvent}
    (h : loadPartialGraph edgeDataSize env fuel new filename nodeStart nodeEnd edgeStart edgeEnd
      numGlobalNodes numGlobalEdges = (.ok (), g', tr)) :
    nodeStart ≤ nodeEnd ∧ edgeStart ≤ edgeEnd ∧
    g'.numLocalNodes = nodeEnd - nodeStart ∧ g'.numLocalEdges = edgeEnd - edgeStart ∧
    g'.graphLoaded = true ∧
    g'.nodeOffset = (if nodeEnd - nodeStart = 0 then 0 else nodeStart) ∧
    g'.edgeOffset = (if edgeEnd - edgeStart = 0 then 0 else edgeStart) := by
  obtain ⟨_, hn, he, g1, f1, g2, f2, g3, f3, h1, h2, h3, hg, _⟩ := loadPartialGraph_ok_inv h rfl
  obtain ⟨_, _, hln3, hle3, hno3, heo3, _⟩ := loadEdgeData_ok_state h3
  have s1 := loadOutIndex_ok_state h1
  have s2 := loadEdgeDest_ok_state h2
  have hg1 : g1.numLocalNodes = nodeEnd - nodeStart ∧
      g1.nodeOffset = (if nodeEnd - nodeStart = 0 then 0 else nodeStart) ∧ g1.edgeOffset = 0 := by
    by_cases hk : nodeEnd - nodeStart = 0
    · obtain ⟨e1, _⟩ := s1.1 hk
      rw [e1, if_pos hk]
      exact ⟨rfl, rfl, rfl⟩
    · obtain ⟨_, buf, e1, _⟩ := s1.2 hk
      rw [e1, if_neg hk]
      exact ⟨rfl, rfl, rfl⟩
  obtain ⟨hln1, hno1, heo1⟩ := hg1
  have hg2 : g2.numLocalNodes = nodeEnd - nodeStart ∧ g2.numLocalEdges = edgeEnd - edgeStart ∧
      g2.nodeOffset = (if nodeEnd - nodeStart = 0 then 0 else nodeStart) ∧
      g2.edgeOffset = (if edgeEnd - edgeStart = 0 then 0 else edgeStart) := by
    by_cases hk : edgeEnd - edgeStart = 0
    · obtain ⟨e2, _⟩ := s2.1 hk
      rw [e2, if_pos hk]
      exact ⟨hln1, rfl, hno1, heo1⟩
    · obtain ⟨_, buf, e2, _⟩ := s2.2 hk
      rw [e2, if_neg hk]
      exact ⟨hln1, rfl, hno1, rfl⟩
  obtain ⟨hln2, hle2, hno2, heo2⟩ := hg2
  rw [hg]
  refine ⟨hn, he, ?_, ?_, rfl, ?_, ?_⟩
  · show g3.numLocalNodes = _
    rw [hln3, hln2]
  · show g3.numLocalEdges = _
    rw [hle3, hle2]
  · show g3.nodeOffset = _
    rw [hno3, hno2]
  · show g3.edgeOffset = _
    rw [heo3, heo2]

/-- C16: the second partial load of the star file, nodes 1 and 2 with the empty edge
range from 2 to 2, returns with the loaded flag set and the local counts 2 and 0, but
with `edgeOffset = 0`, not `edgeStart = 2`; and the load of the empty node range from
1 to 1 leaves `nodeOffset = 0`. -/
theorem load_empty_range_offsets :
    starSecond.1 = .ok () ∧ starSecond.2.1.graphLoaded = true ∧
    starSecond.2.1.numLocalNodes = 3 - 1 ∧ starSecond.2.1.numLocalEdges = 2 - 2 ∧
    starSecond.2.1.nodeOffset = 1 ∧ starSecond.2.1.edgeOffset = 0 ∧
    emptyLoad.1 = .ok () ∧ emptyLoad.2.1.graphLoaded = true ∧
    emptyLoad.2.1.nodeOffset = 0 ∧ emptyLoad.2.1.edgeOffset = 0 := by
  decide

/-- One reader call moves the total by the bytes it counts, in `uint64_t`. -/
theorem access_getBytesRead (edgeDataSize : Option Nat) (g : BufferedGraph) (c : Access) :
    getBytesRead (access edgeDataSize g c)
      = (getBytesRead g + countedBytes edgeDataSize g c) % U64 := by
  cases c with
  | edgeBegin n =>
    simp only [access, edgeBegin, countedBytes, getBytesRead]
    by_cases hl : g.graphLoaded = true
    swap
    · simp [hl]
    by_cases h0 : g.numLocalNodes = 0
    · simp [hl, h0]
    by_cases hlo : g.nodeOffset ≤ n
    swap
    · simp [hl, h0, hlo]
    by_cases hhi : n < (g.nodeOffset + g.numLocalNodes) % U64
    swap
    · simp [hl, h0, hlo, hhi]
    by_cases hfirst : n - g.nodeOffset = 0
    · simp [hl, h0, hlo, hhi, hfirst]
    · cases hb : bufferEntry g.outIndexBuffer 8 (n - g.nodeOffset - 1) <;>
        simp only [hl, h0, hlo, hhi, hfirst, hb, not_true_eq_false, not_false_eq_true, if_true,
          if_false, ne_eq, and_self] <;>
        simp only [U64] <;> omega
  | edgeEnd n =>
    simp only [access, edgeEnd, countedBytes, getBytesRead]
    by_cases hl : g.graphLoaded = true
    swap
    · simp [hl]
    by_cases h0 : g.numLocalNodes = 0
    · simp [hl, h0]
    by_cases hlo : g.nodeOffset ≤ n
    swap
    · simp [hl, h0, hlo]
    by_cases hhi : n < (g.nodeOffset + g.numLocalNodes) % U64
    swap
    · simp [hl, h0, hlo, hhi]
    cases hb : bufferEntry g.outIndexBuffer 8 (n - g.nodeOffset) <;>
      simp only [hl, h0, hlo, hhi, hb, not_true_eq_false, not_false_eq_true, if_true,
        if_false, ne_eq, and_self] <;>
      simp only [U64] <;> omega
  | edgeDestination e =>
    simp only [access, edgeDestination, countedBytes, getBytesRead]
    by_cases hl : g.graphLoaded = true
    swap
    · simp [hl]
    by_cases h0 : g.numLocalEdges = 0
    · simp [hl, h0]
    by_cases hlo : g.edgeOffset ≤ e
    swap
    · simp [hl, h0, hlo]
    by_cases hhi : e < (g.edgeOffset + g.numLocalEdges) % U64
    swap
    · simp [hl, h0, hlo, hhi]
    cases hb : bufferEntry g.edgeDestBuffer 4 (e - g.edgeOffset) <;>
      simp only [hl, h0, hlo, hhi, hb, not_true_eq_false, not_false_eq_true, if_true,
        if_false, ne_eq, and_self] <;>
      simp only [U64] <;> omega
  | edgeData e =>
    cases edgeDataSize with
    | none => simp [access, edgeData, countedBytes, getBytesRead]
    | some sz =>
      simp only [access, edgeData, countedBytes, getBytesRead]
      by_cases hl : g.graphLoaded = true
      swap
      · simp [hl]
      cases hbuf : g.edgeDataBuffer with
      | none => simp [hl]
      | some bytes =>
        by_cases h0 : g.numLocalEdges = 0
        · simp [hl, h0]
        by_cases hlo : g.edgeOffset ≤ e
        swap
        · simp [hl, h0, hlo]
        by_cases hhi : e < (g.edgeOffset + g.numLocalEdges) % U64
        swap
        · simp [hl, h0, hlo, hhi]
        cases hb : bufferEntry (some bytes) sz (e - g.edgeOffset) <;>
          simp only [hl, h0, hlo, hhi, hb, not_true_eq_false, not_false_eq_true, if_true,
            if_false, ne_eq, and_self, Option.isNone_some, Option.isSome_some,
            Bool.false_eq_true] <;>
          simp only [U64] <;> omega
  | getBytesRead => simp [access, countedBytes, getBytesRead]

/-- A sequence of reader calls moves the total by the bytes it counts, in `uint64_t`. -/
theorem accesses_getBytesRead (edgeDataSize : Option Nat) (calls : List Access) :
    ∀ g : BufferedGraph, getBytesRead (accesses edgeDataSize g calls)
      = (getBytesRead g + countedTotal edgeDataSize g calls) % U64 := by
  induction calls with
  | nil =>
    intro g
    simp [accesses, countedTotal, getBytesRead]
  | cons c cs ih =>
    intro g
    have h1 := access_getBytesRead edgeDataSize g c
    have h2 := ih (access edgeDataSize g c)
    simp only [accesses, List.foldl_cons, countedTotal] at h2 ⊢
    rw [h2, h1]
    simp only [U64]
    omega

theorem edgeEnd_keeps (g : BufferedGraph) (n : Nat) :
    (edgeEnd g n).2.graphLoaded = g.graphLoaded ∧
    (edgeEnd g n).2.numLocalNodes = g.numLocalNodes ∧
    (edgeEnd g n).2.nodeOffset = g.nodeOffset := by
  unfold edgeEnd
  split_ifs <;> try simp
  split <;> simp

/-- Repeated `edgeEnd` of a node of the local range counts 8 bytes at every call. -/
theorem countedTotal_edgeEnd (edgeDataSize : Option Nat) (n k : Nat) :
    ∀ g : BufferedGraph, g.graphLoaded = true → g.numLocalNodes ≠ 0 → g.nodeOffset ≤ n →
      n < (g.nodeOffset + g.numLocalNodes) % U64 →
      countedTotal edgeDataSize g (List.replicate k (Access.edgeEnd n)) = 8 * k := by
  induction k with
  | zero => intro g _ _ _ _; rfl
  | succ k ih =>
    intro g hl h0 hlo hhi
    obtain ⟨k1, k2, k3⟩ := edgeEnd_keeps g n
    have hstep : countedBytes edgeDataSize g (Access.edgeEnd n) = 8 := by
      simp [countedBytes, hl, h0, hlo, hhi]
    simp only [List.replicate_succ, countedTotal, hstep]
    rw [ih (access edgeDataSize g (Access.edgeEnd n))
      (by simp only [access]; rw [k1]; exact hl)
      (by simp only [access]; rw [k2]; exact h0)
      (by simp only [access]; rw [k3]; exact hlo)
      (by simp only [access]; rw [k3, k2]; exact hhi)]
    omega

/-- C13, as stated, fails: on the loaded scenario file, after one `edgeEnd(0)` the total
is 8, and after `2 ^ 61 - 1` further calls of `edgeEnd(0)` it is 0; on the instance
whose out-index counter stands at `2 ^ 64 - 8` one call of `edgeEnd(0)` takes the total
from `2 ^ 64 - 8` to 0. -/
theorem getBytesRead_wrap_counterexample :
    Loaded countedOnce ∧ getBytesRead countedOnce = 8 ∧
    getBytesRead (accesses (some 4) countedOnce
      (List.replicate (2 ^ 61 - 1) (Access.edgeEnd 0))) = 0 ∧
    Loaded nearWrap ∧ getBytesRead nearWrap = 2 ^ 64 - 8 ∧
    (edgeEnd nearWrap 0).1 = .ok 2 ∧ getBytesRead (edgeEnd nearWrap 0).2 = 0 := by
  refine ⟨by decide, by decide, ?_, by decide, by decide, by decide, by decide⟩
  rw [accesses_getBytesRead,
    countedTotal_edgeEnd (some 4) 0 (2 ^ 61 - 1) countedOnce (by decide) (by decide) (by decide)
      (by decide)]
  decide

/-- C13, amended: `getBytesRead` is the sum of the three counters modulo `2 ^ 64`; after
every sequence of reader calls its value is its value before plus the bytes the calls
count, modulo `2 ^ 64`; so it is at least its value before whenever that sum stays
below `2 ^ 64`. -/
theorem getBytesRead_sum_and_wrap (edgeDataSize : Option Nat) (g : BufferedGraph)
    (calls : List Access) :
    getBytesRead g
      = (g.numBytesReadOutIndex + g.numBytesReadEdgeDest + g.numBytesReadEdgeData) % U64 ∧
    getBytesRead (accesses edgeDataSize g calls)
      = (getBytesRead g + countedTotal edgeDataSize g calls) % U64 ∧
    (getBytesRead g + countedTotal edgeDataSize g calls < U64 →
      getBytesRead g ≤ getBytesRead (accesses edgeDataSize g calls)) := by
  refine ⟨rfl, accesses_getBytesRead edgeDataSize calls g, ?_⟩
  intro h
  rw [accesses_getBytesRead, Nat.mod_eq_of_lt h]
  exact Nat.le_add_right _ _

/-- An instance of the amended C13: on the loaded scenario file the calls `edgeEnd(0)`,
`edgeBegin(0)`, `edgeDestination(1)` and `edgeData(2)` count 16 bytes and take the
total from 0 to 16. -/
theorem getBytesRead_sum_and_wrap_witness :
    getBytesRead scenarioLoad.2.1 + countedTotal (some 4) scenarioLoad.2.1
      [Access.edgeEnd 0, Access.edgeBegin 0, Access.edgeDestination 1, Access.edgeData 2]
      < U64 ∧
    getBytesRead scenarioLoad.2.1 ≤ getBytesRead (accesses (some 4) scenarioLoad.2.1
      [Access.edgeEnd 0, Access.edgeBegin 0, Access.edgeDestination 1, Access.edgeData 2]) ∧
    getBytesRead scenarioLoad.2.1 = 0 ∧
    getBytesRead (accesses (some 4) scenarioLoad.2.1
      [Access.edgeEnd 0, Access.edgeBegin 0, Access.edgeDestination 1, Access.edgeData 2])
      = 16 :=
  ⟨by decide,
   (getBytesRead_sum_and_wrap (some 4) scenarioLoad.2.1
     [Access.edgeEnd 0, Access.edgeBegin 0, Access.edgeDestination 1, Access.edgeData 2]).2.2
     (by decide),
   by decide, by decide⟩

/-- A read on a good stream that holds the bytes asked for and whose buffer does not
cut the read short: it delivers the next `n` bytes of the file and the stream stays
good. -/
theorem read_full (f : IfStream) (n : Nat) (hgood : f.failbit = false)
    (hfile : f.pos + n ≤ f.content.length) (hcap : n ≤ f.shortReads.headD n) :
    f.read n = ((f.content.drop f.pos).take n,
      { f with pos := f.pos + n, failbit := false, shortReads := f.shortReads.tail,
               trace := f.trace ++ [StreamEvent.read n n] }) := by
  have hlen : ((f.content.drop f.pos).take n).length = n := by
    rw [List.length_take, List.length_drop]; omega
  unfold IfStream.read
  rw [if_neg (by simp [hgood])]
  cases hs : f.shortReads with
  | nil => simp [hlen]
  | cons c cs =>
    rw [hs] at hcap
    have hmin : min c n = n := Nat.min_eq_right (by simpa using hcap)
    simp [hmin, hlen]

/-- What every load stage does after its allocation, a seek and then the read loop, on
a good stream that holds the bytes and whose buffer does not cut the read short: one
read fills the buffer. -/
theorem seek_readLoop_full (fuel c p : Nat) (f : IfStream) (buf : List Nat)
    (hc : c < U64) (hbuf : buf.length = c) (hgood : f.failbit = false)
    (hfile : p + c ≤ f.content.length) (hcap : c ≤ f.shortReads.headD c)
    (hfuel : 1 ≤ fuel) :
    (readLoop fuel (f.seekg p) buf c 0).1 = true ∧
    (readLoop fuel (f.seekg p) buf c 0).2.2 = byteRange f.content p (p + c) ∧
    (c ≠ 0 → (readLoop fuel (f.seekg p) buf c 0).2.1.trace
      = f.trace ++ [StreamEvent.seekg p, StreamEvent.read c c]) := by
  have hseek : f.seekg p = { f with pos := p, trace := f.trace ++ [StreamEvent.seekg p] } := by
    unfold IfStream.seekg
    rw [if_neg (by simp [hgood])]
  have hrange : byteRange f.content p (p + c) = (f.content.drop p).take c := by
    simp [byteRange]
  obtain ⟨fuel, rfl⟩ : ∃ k, fuel = k + 1 := ⟨fuel - 1, by omega⟩
  by_cases hc0 : c = 0
  · subst hc0
    have hnil : buf = [] := List.length_eq_zero.mp hbuf
    simp [readLoop, byteRange, hnil]
  · have hread := read_full (f.seekg p) c (by rw [hseek]; exact hgood)
      (by rw [hseek]; exact hfile) (by rw [hseek]; exact hcap)
    have hlen : ((f.content.drop p).take c).length = c := by
      rw [List.length_take, List.length_drop]; omega
    have hpos : (f.seekg p).pos = p := by rw [hseek]
    have hcontent : (f.seekg p).content = f.content := by rw [hseek]
    have hwrite : writeAt buf 0 ((f.content.drop p).take c) = (f.content.drop p).take c := by
      have hd : List.drop (0 + ((f.content.drop p).take c).length) buf = [] :=
        List.drop_of_length_le (by rw [hlen]; omega)
      unfold writeAt
      rw [hd]
      simp
    simp only [readLoop, hc0, if_false, hread, hpos, hcontent, hlen]
    have hzero : (c + U64 - c) % U64 = 0 := by
      have : c + U64 - c = U64 := by omega
      rw [this, Nat.mod_self]
    rw [hzero, readLoop_done, hwrite, hrange]
    refine ⟨rfl, rfl, fun _ => ?_⟩
    rw [hseek]
    simp

/-- The out-index stage on a good stream that holds the entries and delivers the read in
full: it returns with the buffer holding the bytes of the entries. -/
theorem loadOutIndex_loads (env : Env) (fuel : Nat) (g : BufferedGraph) (f : IfStream)
    (nodeStart k : Nat) (hk : k ≠ 0) (hsize : 8 * k < U64) (hnull : g.outIndexBuffer = none)
    (hmalloc : env.mallocFails (8 * k) = false) (hgood : f.failbit = false)
    (hfile : outIndexReadPosition nodeStart + 8 * k ≤ f.content.length)
    (hcap : 8 * k ≤ f.shortReads.headD (8 * k)) (hfuel : 1 ≤ fuel) :
    (loadOutIndex env fuel g f nodeStart k).1 = .ok () ∧
    (loadOutIndex env fuel g f nodeStart k).2.1
      = { g with
          outIndexBuffer := some (byteRange f.content (outIndexReadPosition nodeStart)
            (outIndexReadPosition nodeStart + 8 * k)),
          nodeOffset := nodeStart } := by
  have hm1 : (8 * k) % U64 = 8 * k := Nat.mod_eq_of_lt hsize
  have hm2 : (k * 8) % U64 = 8 * k := by rw [Nat.mul_comm]; exact hm1
  obtain ⟨h1, h2, _⟩ := seek_readLoop_full fuel (8 * k) (outIndexReadPosition nodeStart) f
    (List.replicate (8 * k) 0) hsize (by simp) hgood hfile hcap hfuel
  unfold loadOutIndex
  rw [if_neg hk, if_neg (by simp [hnull])]
  dsimp only
  rw [hm1, hm2, if_neg (by simp [hmalloc]), if_pos h1, h2]
  exact ⟨rfl, rfl⟩

/-- The destination stage, likewise. -/
theorem loadEdgeDest_loads (env : Env) (fuel : Nat) (g : BufferedGraph) (f : IfStream)
    (edgeStart k numGlobalNodes : Nat) (hk : k ≠ 0) (hsize : 4 * k < U64)
    (hnull : g.edgeDestBuffer = none)
    (hmalloc : env.mallocFails (4 * k) = false) (hgood : f.failbit = false)
    (hfile : edgeDestReadPosition edgeStart numGlobalNodes + 4 * k ≤ f.content.length)
    (hcap : 4 * k ≤ f.shortReads.headD (4 * k)) (hfuel : 1 ≤ fuel) :
    (loadEdgeDest env fuel g f edgeStart k numGlobalNodes).1 = .ok () ∧
    (loadEdgeDest env fuel g f edgeStart k numGlobalNodes).2.1
      = { g with
          edgeDestBuffer := some (byteRange f.content
            (edgeDestReadPosition edgeStart numGlobalNodes)
            (edgeDestReadPosition edgeStart numGlobalNodes + 4 * k)),
          edgeOffset := edgeStart } := by
  have hm1 : (4 * k) % U64 = 4 * k := Nat.mod_eq_of_lt hsize
  have hm2 : (k * 4) % U64 = 4 * k := by rw [Nat.mul_comm]; exact hm1
  obtain ⟨h1, h2, _⟩ := seek_readLoop_full fuel (4 * k)
    (edgeDestReadPosition edgeStart numGlobalNodes) f
    (List.replicate (4 * k) 0) hsize (by simp) hgood hfile hcap hfuel
  unfold loadEdgeDest
  rw [if_neg hk, if_neg (by simp [hnull])]
  dsimp only
  rw [hm1, hm2, if_neg (by simp [hmalloc]), if_pos h1, h2]
  exact ⟨rfl, rfl⟩

/-- The edge-data stage, likewise, for records of `sz` bytes. -/
theorem loadEdgeData_loads (sz : Nat) (env : Env) (fuel : Nat) (g : BufferedGraph)
    (f : IfStream) (edgeStart k numGlobalNodes numGlobalEdges : Nat) (hk : k ≠ 0)
    (hsize : sz * k < U64) (hnull : g.edgeDataBuffer = none)
    (hmalloc : env.mallocFails (sz * k) = false) (hgood : f.failbit = false)
    (hfile : edgeDataReadPosition sz edgeStart numGlobalNodes numGlobalEdges + sz * k
      ≤ f.content.length)
    (hcap : sz * k ≤ f.shortReads.headD (sz * k)) (hfuel : 1 ≤ fuel) :
    (loadEdgeData (some sz) env fuel g f edgeStart k numGlobalNodes numGlobalEdges).1 = .ok () ∧
    (loadEdgeData (some sz) env fuel g f edgeStart k numGlobalNodes numGlobalEdges).2.1
      = { g with
          edgeDataBuffer := some (byteRange f.content
            (edgeDataReadPosition sz edgeStart numGlobalNodes numGlobalEdges)
            (edgeDataReadPosition sz edgeStart numGlobalNodes numGlobalEdges + sz * k)) } := by
  have hm1 : (sz * k) % U64 = sz * k := Nat.mod_eq_of_lt hsize
  have hm2 : (k * sz) % U64 = sz * k := by rw [Nat.mul_comm]; exact hm1
  obtain ⟨h1, h2, _⟩ := seek_readLoop_full fuel (sz * k)
    (edgeDataReadPosition sz edgeStart numGlobalNodes numGlobalEdges) f
    (List.replicate (sz * k) 0) hsize (by simp) hgood hfile hcap hfuel
  unfold loadEdgeData
  dsimp only
  rw [if_neg hk, if_neg (by simp [hnull]), hm1, hm2, if_neg (by simp [hmalloc]), if_pos h1, h2]
  exact ⟨rfl, rfl⟩

end BufferedGraph

end Katana
